import Mathlib

/-!
Shallow embedding of the JKQ decision-diagram package (iic-jku/dd_package):
the complex-number layer, the float pool (ComplexTable), node normalization,
the unique tables, the memoized recursive operators (add, multiply, inner
product, Kronecker, partial trace) and the garbage-collection entry points.

Machine floating point (double) is modelled by exact rationals; the single
numeric tolerance TOLERANCE = 1e-13 of the source is kept as an exact
rational.  The square root used by vector normalization is passed in as an
explicit function parameter (the source calls std::sqrt); theorems that
depend on its value constrain it by a hypothesis or instantiate it with the
exact rational square root.
-/

set_option maxRecDepth 4000

namespace DD

/-- TOLERANCE of the source (ComplexTable.hpp line 355 and DDcomplex.hpp
line 373): the single numeric tolerance 1e-13. -/
def TOL : ℚ := 1 / 10 ^ 13

/-- ComplexValue of DDcomplex.hpp (Cartesian form, fields r and i): a plain
pair of floats, modelled by exact rationals. -/
structure CV where
  r : ℚ
  i : ℚ
deriving DecidableEq, Repr

/-- Complex addition on values (ComplexNumbers::add). -/
def cvAdd (a b : CV) : CV := ⟨a.r + b.r, a.i + b.i⟩

/-- Complex multiplication on values (ComplexNumbers::mul). -/
def cvMul (a b : CV) : CV := ⟨a.r * b.r - a.i * b.i, a.r * b.i + a.i * b.r⟩

/-- Complex division on values (ComplexNumbers::div; the implementation file
of DDcomplex is not under src/, this is standard complex division which the
header's interface implies). -/
def cvDiv (a b : CV) : CV :=
  let d := b.r * b.r + b.i * b.i
  ⟨(a.r * b.r + a.i * b.i) / d, (a.i * b.r - a.r * b.i) / d⟩

/-- Squared magnitude (ComplexNumbers::mag2). -/
def cvMag2 (a : CV) : ℚ := a.r * a.r + a.i * a.i

/-- ComplexNumbers::equalsZero on a ComplexValue. -/
def cvEqZero (a : CV) : Prop := |a.r| < TOL ∧ |a.i| < TOL

instance (a : CV) : Decidable (cvEqZero a) := by unfold cvEqZero; infer_instance

/-- ComplexNumbers::equalsOne on a ComplexValue. -/
def cvEqOne (a : CV) : Prop := |a.r - 1| < TOL ∧ |a.i| < TOL

instance (a : CV) : Decidable (cvEqOne a) := by unfold cvEqOne; infer_instance

/-!
A Complex of the source is a pair of pointers into the float table, each
pointer possibly carrying the sign of the float in its least significant
bit.  The statically pinned entries give the distinguished pointer pairs
CN::ZERO and CN::ONE; every other weight is either interned (both components
point into the table) or drawn from the cache lane of scratch entries.
Pointer identity of table entries is abstracted to the value they hold (the
table keeps at most one entry per value up to the tolerance); what the
embedding keeps apart is the four pointer classes the code distinguishes
with ==/!= comparisons: the static ZERO, the static ONE, interned entries
and cache-lane entries.
-/

/-- Complex of DDcomplex.hpp, abstracted as explained above. -/
inductive CW
  | czero
  | cone
  | interned (re im : ℚ)
  | cachedW (re im : ℚ)
deriving DecidableEq, Repr

/-- Value held by a Complex (ComplexNumbers::val on both components). -/
def CW.val : CW → CV
  | .czero => ⟨0, 0⟩
  | .cone => ⟨1, 0⟩
  | .interned re im => ⟨re, im⟩
  | .cachedW re im => ⟨re, im⟩

/-- Whether a weight lives in the cache lane. -/
def CW.isCached : CW → Bool
  | .cachedW _ _ => true
  | _ => false

/-- ComplexNumbers::conj: flips the sign tag of the imaginary component; no
new entry is allocated, so the kind of the weight is preserved. -/
def CW.conj : CW → CW
  | .czero => .czero
  | .cone => .cone
  | .interned re im => .interned re (-im)
  | .cachedW re im => .cachedW re (-im)

/-- ComplexNumbers::equalsZero on a Complex (value-based, also true for the
static ZERO). -/
def eqZero (c : CW) : Prop := cvEqZero c.val

instance (c : CW) : Decidable (eqZero c) := by unfold eqZero; infer_instance

/-- ComplexNumbers::equalsOne on a Complex. -/
def eqOne (c : CW) : Prop := cvEqOne c.val

instance (c : CW) : Decidable (eqOne c) := by unfold eqOne; infer_instance

/-- Value returned by the float pool for one component: the pool clamps a
value within TOLERANCE of 0 to the static ZERO entry and a magnitude within
TOLERANCE of 1 to the static ONE entry (sign restored through the pointer
tag); any other value gets (or finds) an entry holding it. -/
def snapQ (v : ℚ) : ℚ :=
  if |v| < TOL then 0
  else if |(|v|) - 1| < TOL then (if v < 0 then -1 else 1)
  else v

/-- ComplexNumbers::lookup(r, i): interns a value pair, clamping each
component through the pool; a (0,0) result is the static ZERO pair and a
(1,0) result the static ONE pair. -/
def cnLookup (re im : ℚ) : CW :=
  let r := snapQ re
  let i := snapQ im
  if r = 0 ∧ i = 0 then .czero
  else if r = 1 ∧ i = 0 then .cone
  else .interned r i

/-- ComplexNumbers::lookup on a ComplexValue. -/
def cnLookupC (c : CV) : CW := cnLookup c.r c.i

/-- Weight well-formedness: a weight that can legitimately sit in a stored
node, i.e. not a cache-lane entry, and stable under re-interning (the pool
produced it, so re-looking its value up returns it again). -/
def WFw (w : CW) : Prop := w.isCached = false ∧ cnLookupC w.val = w

end DD

namespace DDCT

/-!
Model of the float-pool lookup of src/include/dd/ComplexTable.hpp (the
version with NBUCKET = 32768).  Buckets hold lists of entry values; the
arena and refcounts are not needed for the bucket-probing claims.
-/

open DD (TOL)

/-- Bucket mask of ComplexTable (NBUCKET - 1 = 32767). -/
def MASK : ℕ := 32767

/-- ComplexTable::hash: linear clipped hash, floor(val * MASK) clamped to
MASK.  The source asserts val is nonnegative. -/
def hashF (v : ℚ) : ℕ := min (Int.toNat ⌊v * (32767 : ℚ)⌋) MASK

/-- ComplexTable::find over one bucket: the first entry whose value is
within TOLERANCE of the probe. -/
def ctFindB (bucket : List ℚ) (v : ℚ) : Option ℚ :=
  bucket.find? fun x => decide (|x - v| < TOL)

/-- Outcome of ComplexTable::lookup: the static zero or one entry, a found
table entry, or a freshly allocated entry (inserted at the head of the
key bucket). -/
inductive CTRes
  | zero
  | one
  | found (x : ℚ)
  | fresh
deriving DecidableEq, Repr

/-- Bucket keys probed by ComplexTable::lookup, in order, before it
allocates a fresh entry (lines 140-168 of ComplexTable.hpp).  Note that the
third probe (the code's upperKey, commented as the higher bucket) is
computed from val - TOLERANCE, exactly as the second probe is. -/
def probedKeys (v : ℚ) : List ℕ :=
  let key := hashF v
  let lowerPart := if v - TOL ≥ 0 ∧ hashF (v - TOL) ≠ key then [hashF (v - TOL)] else []
  let upperKey := hashF (v - TOL)
  let upperPart := if upperKey ≠ key then [upperKey] else []
  key :: (lowerPart ++ upperPart)

/-- ComplexTable::lookup (lines 128-178): clamp to zero/one, then probe the
key bucket, the lower bucket, and the bucket the code computes as upperKey;
on a miss allocate a fresh entry. -/
def ctLookup (table : ℕ → List ℚ) (v : ℚ) : CTRes :=
  if |v| < TOL then .zero
  else if |v - 1| < TOL then .one
  else
    let key := hashF v
    match ctFindB (table key) v with
    | some x => .found x
    | none =>
      let afterLower : Option ℚ :=
        if v - TOL ≥ 0 ∧ hashF (v - TOL) ≠ key then ctFindB (table (hashF (v - TOL))) v
        else none
      match afterLower with
      | some x => .found x
      | none =>
        let upperKey := hashF (v - TOL)
        let afterUpper : Option ℚ :=
          if upperKey ≠ key then ctFindB (table upperKey) v else none
        match afterUpper with
        | some x => .found x
        | none => .fresh

/-- Probe value for the bucket-boundary scenario: a value whose own bucket is
0 while the bucket of value + TOLERANCE is 1. -/
def vProbe : ℚ := (1 - 1 / 10 ^ 10) / 32767

/-- Table entry within TOLERANCE of vProbe whose own hash (hence the bucket
it was inserted into when it was first looked up) is 1 = hashF (vProbe + TOL). -/
def uEntry : ℚ := vProbe + 1 / (2 * 10 ^ 13)

/-- Table holding uEntry in its home bucket 1 and nothing else. -/
def bugTable : ℕ → List ℚ := fun k => if k = 1 then [uEntry] else []

/-- Claim C4: the spec says lookup probes bucket hash(v), then hash(v - tol),
then hash(v + tol) before allocating.  The code computes its third probe key
(upperKey, commented as the higher bucket) from val - TOLERANCE, so the
bucket hash(v + tol) is never probed: at vProbe, whose neighbour uEntry lies
within TOLERANCE in bucket hash(vProbe + TOL) = 1, lookup allocates a fresh
duplicate entry instead of finding uEntry, and the probed key list is just
the home bucket 0. -/
theorem complexTable_lookup_skips_plus_tol_bucket :
    TOL ≤ |vProbe| ∧ TOL ≤ |vProbe - 1| ∧ |uEntry - vProbe| < TOL ∧
    hashF vProbe = 0 ∧ hashF (vProbe + TOL) = 1 ∧
    ctFindB (bugTable (hashF (vProbe + TOL))) vProbe = some uEntry ∧
    ctLookup bugTable vProbe = .fresh ∧
    probedKeys vProbe = [0] := by
  have hz : ¬(|vProbe| < TOL) := by with_unfolding_all decide
  have ho : ¬(|vProbe - 1| < TOL) := by with_unfolding_all decide
  have hk : hashF vProbe = 0 := by with_unfolding_all decide
  have hlow : hashF (vProbe - TOL) = 0 := by with_unfolding_all decide
  have hup : hashF (vProbe + TOL) = 1 := by with_unfolding_all decide
  have hnear : |uEntry - vProbe| < TOL := by with_unfolding_all decide
  refine ⟨by with_unfolding_all decide, by with_unfolding_all decide, hnear, hk, hup, ?_, ?_, ?_⟩
  · rw [hup]
    simp only [ctFindB, bugTable, if_pos rfl, List.find?]
    rw [decide_eq_true hnear]
  · unfold ctLookup
    rw [if_neg hz, if_neg ho]
    simp only [hk, hlow, bugTable, ctFindB, List.find?, ne_eq, not_true_eq_false, and_false,
      if_false, reduceCtorEq, reduceIte]
  · unfold probedKeys
    simp only [hk, hlow, ne_eq, not_true_eq_false, and_false, if_false, List.append_nil,
      List.nil_append]

end DDCT

namespace DD

/-!
Package state.  Node arenas are append-only lists of optional nodes (a freed
node becomes none); a pointer is the terminal, an arena index, or null.  The
unique tables are modelled by structural search over the stored nodes: the
source hashes child pointers into buckets and compares all child edges
structurally, which finds a stored node if and only if one with the same
variable and child edges exists.  Arena address reuse through the free lists
only recycles memory and is not observable through the operations modelled
here, so a candidate node that hits in the unique table is simply dropped.
-/

/-- Node pointer: null, the static terminal of the kind, or an arena index. -/
inductive Ptr
  | null
  | term
  | node (idx : ℕ)
deriving DecidableEq, Repr

/-- Edge of a vector decision diagram (Edge with vNode target). -/
structure VEdge where
  p : Ptr
  w : CW
deriving DecidableEq, Repr

/-- Edge of a matrix decision diagram (Edge with mNode target). -/
structure MEdge where
  p : Ptr
  w : CW
deriving DecidableEq, Repr

/-- Structural zero vector edge vZero: ZERO weight on the terminal. -/
def vZero : VEdge := ⟨.term, .czero⟩

/-- Vector edge vOne: ONE weight on the terminal. -/
def vOne : VEdge := ⟨.term, .cone⟩

/-- Structural zero matrix edge mZero. -/
def mZero : MEdge := ⟨.term, .czero⟩

/-- Matrix edge mOne. -/
def mOne : MEdge := ⟨.term, .cone⟩

/-- Vector node: variable index and two child edges (vNode). -/
structure VNode where
  v : ℤ
  e0 : VEdge
  e1 : VEdge
  ref : ℕ
deriving DecidableEq, Repr

/-- Matrix node: variable index, four child edges in row-major order, and
the symm/ident flags set by checkSpecialMatrices (mNode). -/
structure MNode where
  v : ℤ
  e0 : MEdge
  e1 : MEdge
  e2 : MEdge
  e3 : MEdge
  ref : ℕ
  symm : Bool
  ident : Bool
deriving DecidableEq, Repr

/-- Package state: the node arenas, the cache-lane counter of the complex
pool, every compute table, the Toffoli and operation tables, and the
memoized identity table.  Compute-table keys follow the source: the add
tables are keyed by CachedEdge pairs (target pointer and weight value), the
others by Edge pairs (target pointer and weight identity); insertion conses
the entry, which abstracts the direct-mapped eviction of the source (lookup
sees the newest entry for a key, exactly what last-write-wins gives). -/
structure St where
  vnodes : List (Option VNode)
  mnodes : List (Option MNode)
  cacheCount : ℤ
  ctVAdd : List (((Ptr × CV) × (Ptr × CV)) × (Ptr × CV))
  ctMAdd : List (((Ptr × CV) × (Ptr × CV)) × (Ptr × CV))
  ctMT : List (((Ptr × CW) × (Ptr × CW)) × MEdge)
  ctCMT : List (((Ptr × CW) × (Ptr × CW)) × MEdge)
  ctMV : List (((Ptr × CW) × (Ptr × CW)) × (Ptr × CV))
  ctMM : List (((Ptr × CW) × (Ptr × CW)) × (Ptr × CV))
  ctIP : List (((Ptr × CW) × (Ptr × CW)) × (Ptr × CV))
  ctVK : List (((Ptr × CW) × (Ptr × CW)) × (Ptr × CV))
  ctMK : List (((Ptr × CW) × (Ptr × CW)) × (Ptr × CV))
  toffoli : List ((ℕ × List ℤ × ℤ) × MEdge)
  operations : List ((ℕ × List ℤ × ℕ) × MEdge)
  idTable : List (Option MEdge)
  vNodeCount : ℕ
  mNodeCount : ℕ
  vGcLimit : ℕ
  mGcLimit : ℕ
deriving DecidableEq, Repr

/-- Number of qubit levels a fresh package provides (Package::defaultQubits). -/
def defaultQubits : ℕ := 128

/-- Freshly constructed package: empty arenas and tables, full cache lane
(CACHE_SIZE = 1800 scratch entries), unique-table GC limits at their
initial value 250000. -/
def freshSt : St where
  vnodes := []
  mnodes := []
  cacheCount := 1800
  ctVAdd := []
  ctMAdd := []
  ctMT := []
  ctCMT := []
  ctMV := []
  ctMM := []
  ctIP := []
  ctVK := []
  ctMK := []
  toffoli := []
  operations := []
  idTable := List.replicate defaultQubits none
  vNodeCount := 0
  mNodeCount := 0
  vGcLimit := 250000
  mGcLimit := 250000

/-- Stored vector node at an arena index. -/
def St.vAt (st : St) (j : ℕ) : Option VNode := st.vnodes.getD j none

/-- Stored matrix node at an arena index. -/
def St.mAt (st : St) (j : ℕ) : Option MNode := st.mnodes.getD j none

/-- Variable level of a vector edge target (p->v); the terminal has level
-1, unreachable defaults are 0. -/
def St.vLevel (st : St) (p : Ptr) : ℤ :=
  match p with
  | .term => -1
  | .node j => match st.vAt j with | some nd => nd.v | none => 0
  | .null => 0

/-- Variable level of a matrix edge target. -/
def St.mLevel (st : St) (p : Ptr) : ℤ :=
  match p with
  | .term => -1
  | .node j => match st.mAt j with | some nd => nd.v | none => 0
  | .null => 0

/-- Child i of a vector target; the terminal's children are the null edges
it is initialized with. -/
def St.vChild (st : St) (p : Ptr) (i : Fin 2) : VEdge :=
  match p with
  | .node j =>
    match st.vAt j with
    | some nd => if i = 0 then nd.e0 else nd.e1
    | none => ⟨.null, .czero⟩
  | _ => ⟨.null, .czero⟩

/-- Child i (row-major) of a matrix target. -/
def St.mChild (st : St) (p : Ptr) (i : Fin 4) : MEdge :=
  match p with
  | .node j =>
    match st.mAt j with
    | some nd =>
      if i = 0 then nd.e0 else if i = 1 then nd.e1 else if i = 2 then nd.e2 else nd.e3
    | none => ⟨.null, .czero⟩
  | _ => ⟨.null, .czero⟩

/-- Symm flag of a matrix target (true for the static terminal). -/
def St.mSymm (st : St) (p : Ptr) : Bool :=
  match p with
  | .term => true
  | .node j => match st.mAt j with | some nd => nd.symm | none => false
  | .null => false

/-- Ident flag of a matrix target (true for the static terminal). -/
def St.mIdent (st : St) (p : Ptr) : Bool :=
  match p with
  | .term => true
  | .node j => match st.mAt j with | some nd => nd.ident | none => false
  | .null => false

/-- Edge.isTerminal of the source: the target is the static terminal. -/
def VEdge.isTerm (e : VEdge) : Prop := e.p = Ptr.term

instance (e : VEdge) : Decidable (e.isTerm) := by unfold VEdge.isTerm; infer_instance

/-- Edge.isTerminal for matrix edges. -/
def MEdge.isTerm (e : MEdge) : Prop := e.p = Ptr.term

instance (e : MEdge) : Decidable (e.isTerm) := by unfold MEdge.isTerm; infer_instance

/-- ComplexNumbers::getCachedComplex(r, i): draw a scratch complex from the
cache lane (two entries, so cacheCount drops by 2) holding the given value. -/
def getCachedCW (c : CV) (st : St) : CW × St :=
  (.cachedW c.r c.i, { st with cacheCount := st.cacheCount - 2 })

/-- ComplexNumbers::releaseCached: return a scratch complex to the cache
lane (cacheCount rises by 2). -/
def releaseCachedSt (st : St) : St := { st with cacheCount := st.cacheCount + 2 }

/-- ComplexNumbers::mulCached: product into a fresh cache-lane complex. -/
def mulCachedW (a b : CW) (st : St) : CW × St := getCachedCW (cvMul a.val b.val) st

/-- ComplexNumbers::addCached: sum into a fresh cache-lane complex. -/
def addCachedW (a b : CW) (st : St) : CW × St := getCachedCW (cvAdd a.val b.val) st

/-- Assoc-list compute-table search: newest entry for the key. -/
def ctFind {α β : Type} [DecidableEq α] (l : List (α × β)) (k : α) : Option β :=
  (l.find? fun e => decide (e.1 = k)).map (·.2)

end DD

namespace DD

/-- Result of normalizing a fresh node: either the structural zero edge (the
candidate node is returned to the arena) or the rewritten parent weight and
child edges that go to the unique table. -/
inductive VNormRes
  | zero
  | norm (w : CW) (k0 k1 : VEdge)
deriving DecidableEq, Repr

/-- Package::normalize for vector nodes (part_002 lines 107-188).  sq is the
square root (std::sqrt in the source); cached tells whether the child
weights are cache-lane entries.  The incoming parent weight (always
CN::ONE at the call site) is never read, the code overwrites it. -/
def vNormalize (sq : ℚ → ℚ) (cached : Bool) (k0 k1 : VEdge) (st : St) : VNormRes × St :=
  let z0 := eqZero k0.w
  let z1 := eqZero k1.w
  -- snap approximately-zero cached weights to the structural zero edge
  let st := if z0 ∧ k0.w ≠ .czero then releaseCachedSt st else st
  let k0 := if z0 ∧ k0.w ≠ .czero then vZero else k0
  let st := if z1 ∧ k1.w ≠ .czero then releaseCachedSt st else st
  let k1 := if z1 ∧ k1.w ≠ .czero then vZero else k1
  -- argmax is the first index with a non-null target and a non-zero weight;
  -- sum accumulates the squared magnitudes of all such indices, div is the
  -- squared magnitude at argmax
  let c0 := ¬(k0.p = Ptr.null ∨ z0)
  let c1 := ¬(k1.p = Ptr.null ∨ z1)
  if c0 ∨ c1 then
    let argmax0 : Bool := decide c0
    let maxE := if argmax0 then k0 else k1
    let dv := cvMag2 maxE.w.val
    let sm := (if c0 then cvMag2 k0.w.val else 0) + (if c1 then cvMag2 k1.w.val else 0)
    let s := sq (sm / dv)
    -- parent weight: scale the argmax weight by s, in place if cached
    if cached ∧ maxE.w ≠ .cone then
      let rW : CW := .cachedW (maxE.w.val.r * s) (maxE.w.val.i * s)
      let maxW := cnLookup (1 / s) 0
      let maxE2 := if maxW = .czero then vZero else ⟨maxE.p, maxW⟩
      let minE := if argmax0 then k1 else k0
      let zmin := if argmax0 then z1 else z0
      if zmin then
        (if argmax0 then .norm rW maxE2 minE else .norm rW minE maxE2, st)
      else
        let st := if cached then releaseCachedSt st else st
        let minW := cnLookupC (cvDiv minE.w.val rW.val)
        let minE2 := if minW = .czero then vZero else ⟨minE.p, minW⟩
        (if argmax0 then .norm rW maxE2 minE2 else .norm rW minE2 maxE2, st)
    else
      let rW : CW := cnLookup (maxE.w.val.r * s) (maxE.w.val.i * s)
      if eqZero rW then (.zero, st)
      else
        let maxW := cnLookup (1 / s) 0
        let maxE2 := if maxW = .czero then vZero else ⟨maxE.p, maxW⟩
        let minE := if argmax0 then k1 else k0
        let zmin := if argmax0 then z1 else z0
        if zmin then
          (if argmax0 then .norm rW maxE2 minE else .norm rW minE maxE2, st)
        else
          let st := if cached then releaseCachedSt st else st
          let minW := cnLookupC (cvDiv minE.w.val rW.val)
          let minE2 := if minW = .czero then vZero else ⟨minE.p, minW⟩
          (if argmax0 then .norm rW maxE2 minE2 else .norm rW minE2 maxE2, st)
  else
    -- all edges zero: release cached weights of null-target edges, return vZero
    let st := if cached ∧ k0.p = Ptr.null ∧ k0.w ≠ .czero then releaseCachedSt st else st
    let st := if cached ∧ k1.p = Ptr.null ∧ k1.w ≠ .czero then releaseCachedSt st else st
    (.zero, st)

/-- Unique-table search for a vector node: the stored node with the same
variable and structurally equal child edges, if any (UniqueTable::lookup
walks the bucket of hash(p) at level v and compares all child edges). -/
def utVFind (st : St) (var : ℤ) (k0 k1 : VEdge) : Option ℕ :=
  (List.range st.vnodes.length).find? fun j =>
    decide ((st.vAt j).any fun nd => nd.v = var ∧ nd.e0 = k0 ∧ nd.e1 = k1)

/-- Unique-table search for a matrix node. -/
def utMFind (st : St) (var : ℤ) (k0 k1 k2 k3 : MEdge) : Option ℕ :=
  (List.range st.mnodes.length).find? fun j =>
    decide ((st.mAt j).any fun nd =>
      nd.v = var ∧ nd.e0 = k0 ∧ nd.e1 = k1 ∧ nd.e2 = k2 ∧ nd.e3 = k3)

/-- Package::makeVectorNode / makeDDNode for vectors: normalize the fresh
node, then look it up in the unique table, inserting on a miss. -/
def makeVectorNode (sq : ℚ → ℚ) (cached : Bool) (var : ℤ) (k0 k1 : VEdge) (st : St) :
    VEdge × St :=
  match vNormalize sq cached k0 k1 st with
  | (.zero, st) => (vZero, st)
  | (.norm w j0 j1, st) =>
    match utVFind st var j0 j1 with
    | some j => (⟨.node j, w⟩, st)
    | none =>
      let j := st.vnodes.length
      (⟨.node j, w⟩,
        { st with vnodes := st.vnodes ++ [some ⟨var, j0, j1, 0⟩],
                  vNodeCount := st.vNodeCount + 1 })

/-- Result of matrix normalization. -/
inductive MNormRes
  | zero
  | norm (w : CW) (k0 k1 k2 k3 : MEdge)
deriving DecidableEq, Repr

/-- Division step for one non-argmax child in matrix normalization
(part_002 lines 334-349): zero children become mZero, the rest are divided
by the argmax weight and re-interned (releasing their cached weight). -/
def mDivChild (cached : Bool) (zi : Bool) (k : MEdge) (maxc : CW) (st : St) : MEdge × St :=
  if zi then
    let st := if cached ∧ k.w ≠ .czero then releaseCachedSt st else st
    (mZero, st)
  else
    let st := if cached ∧ k.w ≠ .cone then releaseCachedSt st else st
    let w1 := if eqOne k.w then CW.cone else k.w
    (⟨k.p, cnLookupC (cvDiv w1.val maxc.val)⟩, st)

/-- Argmax fold step of matrix normalization (part_002 lines 284-298): a
later index replaces the current one only when its squared magnitude
exceeds the current maximum by more than TOLERANCE. -/
def mArgStep (acc : Option (ℕ × ℚ × CW)) (i : ℕ) (zi : Bool) (k : MEdge) :
    Option (ℕ × ℚ × CW) :=
  if zi then acc
  else
    match acc with
    | none => some (i, cvMag2 k.w.val, k.w)
    | some (a, mx, mc) =>
      if cvMag2 k.w.val - mx > TOL then some (i, cvMag2 k.w.val, k.w)
      else some (a, mx, mc)

/-- Package::normalize for matrix nodes (part_002 lines 266-352).  pw is the
incoming parent weight (CN::ONE at the construction site). -/
def mNormalize (cached : Bool) (pw : CW) (k0 k1 k2 k3 : MEdge) (st : St) : MNormRes × St :=
  let z0 : Bool := decide (eqZero k0.w)
  let z1 : Bool := decide (eqZero k1.w)
  let z2 : Bool := decide (eqZero k2.w)
  let z3 : Bool := decide (eqZero k3.w)
  -- snap approximately-zero weights to mZero, releasing cached ones
  let st := if z0 ∧ k0.w ≠ .czero then releaseCachedSt st else st
  let k0 := if z0 ∧ k0.w ≠ .czero then mZero else k0
  let st := if z1 ∧ k1.w ≠ .czero then releaseCachedSt st else st
  let k1 := if z1 ∧ k1.w ≠ .czero then mZero else k1
  let st := if z2 ∧ k2.w ≠ .czero then releaseCachedSt st else st
  let k2 := if z2 ∧ k2.w ≠ .czero then mZero else k2
  let st := if z3 ∧ k3.w ≠ .czero then releaseCachedSt st else st
  let k3 := if z3 ∧ k3.w ≠ .czero then mZero else k3
  -- determine the maximum-amplitude index
  let acc := mArgStep (mArgStep (mArgStep (mArgStep none 0 z0 k0) 1 z1 k1) 2 z2 k2) 3 z3 k3
  match acc with
  | none =>
    -- all edges zero: release any cached approximately-zero leftovers
    let st := if cached ∧ k0.w ≠ .czero then releaseCachedSt st else st
    let st := if cached ∧ k1.w ≠ .czero then releaseCachedSt st else st
    let st := if cached ∧ k2.w ≠ .czero then releaseCachedSt st else st
    let st := if cached ∧ k3.w ≠ .czero then releaseCachedSt st else st
    (.zero, st)
  | some (argmax, _, maxc) =>
    -- multiply the parent weight by the argmax weight
    let pw :=
      if cached then (if pw = .cone then maxc else CW.cachedW (cvMul pw.val maxc.val).r (cvMul pw.val maxc.val).i)
      else (if pw = .cone then maxc else cnLookupC (cvMul pw.val maxc.val))
    -- rewrite each child: argmax gets ONE, others are divided by maxc
    let r0 := if argmax = 0 then ((⟨k0.p, CW.cone⟩ : MEdge), st) else mDivChild cached z0 k0 maxc st
    let r1 := if argmax = 1 then ((⟨k1.p, CW.cone⟩ : MEdge), r0.2) else mDivChild cached z1 k1 maxc r0.2
    let r2 := if argmax = 2 then ((⟨k2.p, CW.cone⟩ : MEdge), r1.2) else mDivChild cached z2 k2 maxc r1.2
    let r3 := if argmax = 3 then ((⟨k3.p, CW.cone⟩ : MEdge), r2.2) else mDivChild cached z3 k3 maxc r2.2
    (.norm pw r0.1 r1.1 r2.1 r3.1, r3.2)

end DD

namespace DD

/-- Edge identity as a compute-table key: target pointer and weight. -/
def keyE (e : MEdge) : Ptr × CW := (e.p, e.w)

/-- Edge identity key for vector edges. -/
def keyEV (e : VEdge) : Ptr × CW := (e.p, e.w)

/-- CachedEdge key as the add compute tables use it: target pointer and the
value of the weight. -/
def keyCE (p : Ptr) (w : CW) : Ptr × CV := (p, w.val)

/-- Overwrite the symm/ident flags of stored matrix node j. -/
def St.setMFlags (st : St) (j : ℕ) (sy idf : Bool) : St :=
  match st.mAt j with
  | some nd => { st with mnodes := st.mnodes.set j (some { nd with symm := sy, ident := idf }) }
  | none => st

mutual

/-- Package::makeMatrixNode / makeDDNode for matrices (part_002 lines
241-264): normalize, look up in the unique table, and on a fresh insertion
compute the node's symm/ident flags.  Fuel bounds the recursion through
checkSpecialMatrices and transpose. -/
def makeMatrixNode (fuel : ℕ) (cached : Bool) (var : ℤ) (k0 k1 k2 k3 : MEdge) (st : St) :
    Option (MEdge × St) :=
  match fuel with
  | 0 => none
  | fuel + 1 =>
    match mNormalize cached .cone k0 k1 k2 k3 st with
    | (.zero, st) => some (mZero, st)
    | (.norm w j0 j1 j2 j3, st) =>
      match utMFind st var j0 j1 j2 j3 with
      | some j => some (⟨.node j, w⟩, st)
      | none =>
        let j := st.mnodes.length
        let st := { st with mnodes := st.mnodes ++ [some ⟨var, j0, j1, j2, j3, 0, false, false⟩],
                            mNodeCount := st.mNodeCount + 1 }
        match checkSpecialMatrices fuel j st with
        | some st => some (⟨.node j, w⟩, st)
        | none => none

/-- Package::checkSpecialMatrices (part_002 lines 399-416): on a freshly
stored node, set symm when both diagonal children are symm and the
transpose of child 1 equals child 2, and ident when additionally the
diagonal children are ident with ONE weights and the off-diagonal edges are
ZERO. -/
def checkSpecialMatrices (fuel : ℕ) (j : ℕ) (st : St) : Option St :=
  match fuel with
  | 0 => none
  | fuel + 1 =>
    match st.mAt j with
    | none => some st
    | some nd =>
      if nd.v = -1 then some st
      else if ¬(st.mSymm nd.e0.p = true ∧ st.mSymm nd.e3.p = true) then some st
      else
        match transposeRec fuel nd.e1 st with
        | none => none
        | some (t, st) =>
          if t ≠ nd.e2 then some st
          else
            let idf : Bool :=
              st.mIdent nd.e0.p ∧ nd.e1.w = CW.czero ∧ nd.e2.w = CW.czero ∧
                nd.e0.w = CW.cone ∧ nd.e3.w = CW.cone ∧ st.mIdent nd.e3.p
            some (st.setMFlags j true idf)

/-- Package::transpose (part_002 lines 663-691): symmetric or terminal
targets return unchanged; otherwise recurse with the children permuted as
e[2i+j] := transpose(e[2j+i]), rebuild the node, multiply the incoming
weight onto the result and memoize it. -/
def transposeRec (fuel : ℕ) (a : MEdge) (st : St) : Option (MEdge × St) :=
  match fuel with
  | 0 => none
  | fuel + 1 =>
    if a.p = Ptr.null ∨ a.p = Ptr.term ∨ st.mSymm a.p = true then some (a, st)
    else
      match ctFind st.ctMT (keyE a, keyE a) with
      | some r => some (r, st)
      | none => do
        let v := st.mLevel a.p
        let (t0, st) ← transposeRec fuel (st.mChild a.p 0) st
        let (t1, st) ← transposeRec fuel (st.mChild a.p 2) st
        let (t2, st) ← transposeRec fuel (st.mChild a.p 1) st
        let (t3, st) ← transposeRec fuel (st.mChild a.p 3) st
        let (r, st) ← makeMatrixNode fuel false v t0 t1 t2 t3 st
        let r2 : MEdge := ⟨r.p, cnLookupC (cvMul r.w.val a.w.val)⟩
        let st := { st with ctMT := ((keyE a, keyE a), r2) :: st.ctMT }
        some (r2, st)

end

end DD

namespace DD

/-- Package::makeVectorTerminal: an edge of the given weight on the
terminal. -/
def makeVectorTerminal (c : CW) : VEdge := ⟨.term, c⟩

/-- Package::makeMatrixTerminal. -/
def makeMatrixTerminal (c : CW) : MEdge := ⟨.term, c⟩

/-- IdTable entry for a level (none for the cleared/null entry). -/
def St.idGet (st : St) (q : ℤ) : Option MEdge :=
  if q < 0 then none else st.idTable.getD q.toNat none

/-- Store an IdTable entry. -/
def St.idSet (st : St) (q : ℤ) (e : MEdge) : St :=
  if q < 0 then st else { st with idTable := st.idTable.set q.toNat (some e) }

/-- Iterated identity levels: the loop of makeIdent that wraps the running
edge as diag(e, e) count times, starting at level k. -/
def idChain (fuel : ℕ) : ℕ → ℤ → MEdge → St → Option (MEdge × St)
  | 0, _, e, st => some (e, st)
  | n + 1, k, e, st => do
    let (e, st) ← makeMatrixNode fuel false k e mZero mZero e st
    idChain fuel n (k + 1) e st

/-- Package::makeIdent(lsq, msq) (part_002 lines 1168-1191): memoized
identity construction; a negative msq yields mOne, a cached IdTable entry is
returned directly, and an entry one level below is extended by one level. -/
def makeIdentRange (fuel : ℕ) (lsq msq : ℤ) (st : St) : Option (MEdge × St) :=
  if msq < 0 then some (mOne, st)
  else
    match (if lsq = 0 then st.idGet msq else none) with
    | some e => some (e, st)
    | none =>
      match (if msq ≥ 1 then st.idGet (msq - 1) else none) with
      | some prev => do
        let (e, st) ← makeMatrixNode fuel false msq prev mZero mZero prev st
        some (e, st.idSet msq e)
      | none => do
        let (e, st) ← makeMatrixNode fuel false lsq mOne mZero mZero mOne st
        let (e, st) ← idChain fuel (msq - lsq).toNat (lsq + 1) e st
        if lsq = 0 then some (e, st.idSet msq e) else some (e, st)

/-- Package::makeIdent(n) of the header: makeIdent(0, n - 1). -/
def makeIdentN (fuel : ℕ) (n : ℕ) (st : St) : Option (MEdge × St) :=
  makeIdentRange fuel 0 ((n : ℤ) - 1) st

/-- Chain of makeVectorNode calls building the zero state from the terminal
upward. -/
def zeroChain (sq : ℚ → ℚ) : ℕ → ℤ → VEdge → St → VEdge × St
  | 0, _, f, st => (f, st)
  | n + 1, p, f, st =>
    let (f, st) := makeVectorNode sq false p f vZero st
    zeroChain sq n (p + 1) f st

/-- Package::makeZeroState (part_002 lines 190-196). -/
def makeZeroState (sq : ℚ → ℚ) (msq : ℤ) (st : St) : VEdge × St :=
  zeroChain sq (msq + 1).toNat 0 vOne st

/-- BasisStates of the source. -/
inductive BasisStates
  | zero
  | one
  | plus
  | minus
  | right
  | left
deriving DecidableEq, Repr

/-- Per-qubit loop of makeBasisState (general basis-state overload); sqrt2
stands for the literal constant CN::SQRT_2. -/
def basisChain (sq : ℚ → ℚ) (sqrt2 : ℚ) : ℕ → List BasisStates → ℤ → VEdge → St → VEdge × St
  | 0, _, _, f, st => (f, st)
  | n + 1, state, p, f, st =>
    let b := state.getD p.toNat BasisStates.zero
    let (f, st) :=
      match b with
      | .zero => makeVectorNode sq false p f vZero st
      | .one => makeVectorNode sq false p vZero f st
      | .plus => makeVectorNode sq false p ⟨f.p, cnLookup sqrt2 0⟩ ⟨f.p, cnLookup sqrt2 0⟩ st
      | .minus => makeVectorNode sq false p ⟨f.p, cnLookup sqrt2 0⟩ ⟨f.p, cnLookup (-sqrt2) 0⟩ st
      | .right => makeVectorNode sq false p ⟨f.p, cnLookup sqrt2 0⟩ ⟨f.p, cnLookup 0 sqrt2⟩ st
      | .left => makeVectorNode sq false p ⟨f.p, cnLookup sqrt2 0⟩ ⟨f.p, cnLookup 0 (-sqrt2)⟩ st
    basisChain sq sqrt2 n state (p + 1) f st

/-- Package::makeBasisState(Qubit, vector of BasisStates) (part_002 lines
210-239): a state vector shorter than msq+1 entries raises
std::invalid_argument before any node is built; otherwise the states are
chained bottom-up. -/
def makeBasisStateB (sq : ℚ → ℚ) (sqrt2 : ℚ) (msq : ℤ) (state : List BasisStates) (st : St) :
    Except String VEdge × St :=
  if (state.length : ℤ) < msq + 1 then
    (.error "Insufficient qubit states provided", st)
  else
    let (f, st) := basisChain sq sqrt2 (msq + 1).toNat state 0 vOne st
    (.ok f, st)

/-- Weight-stripped copy of a vector edge (the xCopy/yCopy pattern of the
multiply and inner-product recursions: same target, weight CN::ONE). -/
def stripV (e : VEdge) : VEdge := ⟨e.p, CW.cone⟩

/-- Weight-stripped copy of a matrix edge. -/
def stripM (e : MEdge) : MEdge := ⟨e.p, CW.cone⟩

/-- Key pair the vector add compute table is consulted with (part_002 lines
510 and 570): CachedEdge views of the operands carrying their own weights. -/
def addKeyV (x y : VEdge) : (Ptr × CV) × (Ptr × CV) := (keyCE x.p x.w, keyCE y.p y.w)

/-- Key pair the matrix add compute table is consulted with. -/
def addKeyM (x y : MEdge) : (Ptr × CV) × (Ptr × CV) := (keyCE x.p x.w, keyCE y.p y.w)

/-- Key pair for the matrix-vector multiply table: the edges as passed
(multiply2 passes the weight-stripped copies). -/
def edgeKeyMV (x : MEdge) (y : VEdge) : (Ptr × CW) × (Ptr × CW) := (keyE x, keyEV y)

/-- Key pair for the matrix-matrix multiply and matrix Kronecker tables. -/
def edgeKeyMM (x y : MEdge) : (Ptr × CW) × (Ptr × CW) := (keyE x, keyE y)

/-- Key pair for the inner-product and vector Kronecker tables. -/
def edgeKeyVV (x y : VEdge) : (Ptr × CW) × (Ptr × CW) := (keyEV x, keyEV y)

/-- Operand pick for one sub-position of the vector add recursion: the
operand's child (with the weight multiplied in when non-zero) when the
operand's top sits at the recursion level, the operand itself otherwise
(nulled when the other operand's child has a null target).  Mirrors
part_002 lines 530-556 for one index. -/
def addPickV (st : St) (opnd other : VEdge) (opndAt : Bool) (i : Fin 2) : VEdge × St :=
  if opndAt then
    let c := st.vChild opnd.p i
    if c.w ≠ CW.czero then
      let (cw, st) := mulCachedW c.w opnd.w st
      (⟨c.p, cw⟩, st)
    else (c, st)
  else ((if (st.vChild other.p i).p = Ptr.null then ⟨Ptr.null, CW.czero⟩ else opnd), st)

/-- Package::add2 for vector edges (part_002 lines 485-572): null and zero
short-circuits, same-target merge, compute-table lookup on the CachedEdge
keys with the operands' own weights, and the radix-2 recursion. -/
def add2V (sq : ℚ → ℚ) : ℕ → VEdge → VEdge → St → Option (VEdge × St)
  | 0, _, _, _ => none
  | fuel + 1, x, y, st =>
    if x.p = Ptr.null then some (y, st)
    else if y.p = Ptr.null then some (x, st)
    else if x.w = CW.czero then
      (if y.w = CW.czero then some (y, st)
       else
         let (c, st) := getCachedCW y.w.val st
         some (⟨y.p, c⟩, st))
    else if y.w = CW.czero then
      let (c, st) := getCachedCW x.w.val st
      some (⟨x.p, c⟩, st)
    else if x.p = y.p then
      let (c, st) := addCachedW x.w y.w st
      if eqZero c then some (vZero, releaseCachedSt st)
      else some (⟨y.p, c⟩, st)
    else
      match ctFind st.ctVAdd (addKeyV x y) with
      | some (rp, rw) =>
        if cvEqZero rw then some (vZero, st)
        else
          let (c, st) := getCachedCW rw st
          some (⟨rp, c⟩, st)
      | none => do
        let w := if x.isTerm then st.vLevel y.p
                 else if ¬y.isTerm ∧ st.vLevel y.p > st.vLevel x.p then st.vLevel y.p
                 else st.vLevel x.p
        let xAt : Bool := decide (¬x.isTerm ∧ st.vLevel x.p = w)
        let yAt : Bool := decide (¬y.isTerm ∧ st.vLevel y.p = w)
        let (e1, st) := addPickV st x y xAt 0
        let (e2, st) := addPickV st y x yAt 0
        let (edge0, st) ← add2V sq fuel e1 e2 st
        let st := if xAt ∧ e1.w ≠ CW.czero then releaseCachedSt st else st
        let st := if yAt ∧ e2.w ≠ CW.czero then releaseCachedSt st else st
        let (f1, st) := addPickV st x y xAt 1
        let (f2, st) := addPickV st y x yAt 1
        let (edge1, st) ← add2V sq fuel f1 f2 st
        let st := if xAt ∧ f1.w ≠ CW.czero then releaseCachedSt st else st
        let st := if yAt ∧ f2.w ≠ CW.czero then releaseCachedSt st else st
        let (e, st) := makeVectorNode sq true w edge0 edge1 st
        let st := { st with ctVAdd := (addKeyV x y, (e.p, e.w.val)) :: st.ctVAdd }
        some (e, st)

end DD

namespace DD

/-- Operand pick for one sub-position of the matrix add recursion: the
operand's child (with the weight multiplied in when non-zero) when the
operand's top sits at the recursion level, the operand itself otherwise
(nulled when the other operand's child has a null target).  Mirrors
part_002 lines 619-645 for one index. -/
def addPickM (st : St) (opnd other : MEdge) (opndAt : Bool) (i : Fin 4) : MEdge × St :=
  if opndAt then
    let c := st.mChild opnd.p i
    if c.w ≠ CW.czero then
      let (cw, st) := mulCachedW c.w opnd.w st
      (⟨c.p, cw⟩, st)
    else (c, st)
  else ((if (st.mChild other.p i).p = Ptr.null then ⟨Ptr.null, CW.czero⟩ else opnd), st)

/-- Package::add2 for matrix edges (part_002 lines 574-661). -/
def add2M (sq : ℚ → ℚ) : ℕ → MEdge → MEdge → St → Option (MEdge × St)
  | 0, _, _, _ => none
  | fuel + 1, x, y, st =>
    if x.p = Ptr.null then some (y, st)
    else if y.p = Ptr.null then some (x, st)
    else if x.w = CW.czero then
      (if y.w = CW.czero then some (y, st)
       else
         let (c, st) := getCachedCW y.w.val st
         some (⟨y.p, c⟩, st))
    else if y.w = CW.czero then
      let (c, st) := getCachedCW x.w.val st
      some (⟨x.p, c⟩, st)
    else if x.p = y.p then
      let (c, st) := addCachedW x.w y.w st
      if eqZero c then some (mZero, releaseCachedSt st)
      else some (⟨y.p, c⟩, st)
    else
      match ctFind st.ctMAdd (addKeyM x y) with
      | some (rp, rw) =>
        if cvEqZero rw then some (mZero, st)
        else
          let (c, st) := getCachedCW rw st
          some (⟨rp, c⟩, st)
      | none => do
        let w := if x.isTerm then st.mLevel y.p
                 else if ¬y.isTerm ∧ st.mLevel y.p > st.mLevel x.p then st.mLevel y.p
                 else st.mLevel x.p
        let xAt : Bool := decide (¬x.isTerm ∧ st.mLevel x.p = w)
        let yAt : Bool := decide (¬y.isTerm ∧ st.mLevel y.p = w)
        let (e1, st) := addPickM st x y xAt 0
        let (e2, st) := addPickM st y x yAt 0
        let (edge0, st) ← add2M sq fuel e1 e2 st
        let st := if xAt ∧ e1.w ≠ CW.czero then releaseCachedSt st else st
        let st := if yAt ∧ e2.w ≠ CW.czero then releaseCachedSt st else st
        let (e1, st) := addPickM st x y xAt 1
        let (e2, st) := addPickM st y x yAt 1
        let (edge1, st) ← add2M sq fuel e1 e2 st
        let st := if xAt ∧ e1.w ≠ CW.czero then releaseCachedSt st else st
        let st := if yAt ∧ e2.w ≠ CW.czero then releaseCachedSt st else st
        let (e1, st) := addPickM st x y xAt 2
        let (e2, st) := addPickM st y x yAt 2
        let (edge2, st) ← add2M sq fuel e1 e2 st
        let st := if xAt ∧ e1.w ≠ CW.czero then releaseCachedSt st else st
        let st := if yAt ∧ e2.w ≠ CW.czero then releaseCachedSt st else st
        let (e1, st) := addPickM st x y xAt 3
        let (e2, st) := addPickM st y x yAt 3
        let (edge3, st) ← add2M sq fuel e1 e2 st
        let st := if xAt ∧ e1.w ≠ CW.czero then releaseCachedSt st else st
        let st := if yAt ∧ e2.w ≠ CW.czero then releaseCachedSt st else st
        let (e, st) ← makeMatrixNode fuel true w edge0 edge1 edge2 edge3 st
        let st := { st with ctMAdd := (addKeyM x y, (e.p, e.w.val)) :: st.ctMAdd }
        some (e, st)

/-- Package::add public wrapper (part_003 lines 227-242) for vectors:
add2, then release the cached result weight and intern it.  The function
asserts that cacheCount after equals cacheCount before. -/
def addV (sq : ℚ → ℚ) (fuel : ℕ) (x y : VEdge) (st : St) : Option (VEdge × St) := do
  let (r, st) ← add2V sq fuel x y st
  if r.w ≠ CW.czero then
    let st := releaseCachedSt st
    some ((⟨r.p, cnLookupC r.w.val⟩ : VEdge), st)
  else some (r, st)

/-- Package::add public wrapper for matrices. -/
def addM (sq : ℚ → ℚ) (fuel : ℕ) (x y : MEdge) (st : St) : Option (MEdge × St) := do
  let (r, st) ← add2M sq fuel x y st
  if r.w ≠ CW.czero then
    let st := releaseCachedSt st
    some ((⟨r.p, cnLookupC r.w.val⟩ : MEdge), st)
  else some (r, st)

end DD

namespace DD

/-- Accumulation step of the multiply recursion (part_002 lines 794-801,
k = 1 case): keep the sum so far if the new product is zero, take the new
product if the sum so far is zero, otherwise add the two and release both
cached weights. -/
def combineV (sq : ℚ → ℚ) (fuel : ℕ) (cur m : VEdge) (st : St) : Option (VEdge × St) :=
  if cur.w = CW.czero then some (m, st)
  else if m.w ≠ CW.czero then do
    let (s, st) ← add2V sq fuel cur m st
    let st := releaseCachedSt (releaseCachedSt st)
    some (s, st)
  else some (cur, st)

/-- Accumulation step of the matrix multiply recursion. -/
def combineM (sq : ℚ → ℚ) (fuel : ℕ) (cur m : MEdge) (st : St) : Option (MEdge × St) :=
  if cur.w = CW.czero then some (m, st)
  else if m.w ≠ CW.czero then do
    let (s, st) ← add2M sq fuel cur m st
    let st := releaseCachedSt (releaseCachedSt st)
    some (s, st)
  else some (cur, st)

/-- Package::multiply2(mEdge, vEdge) (part_002 lines 728-821): null and
zero short-circuits, scalar product at the terminal level, compute-table
lookup and insert on the weight-stripped copies, the identity fast path,
and the radix-2 row recursion. -/
def multiply2MV (sq : ℚ → ℚ) : ℕ → MEdge → VEdge → ℤ → St → Option (VEdge × St)
  | 0, _, _, _, _ => none
  | fuel + 1, x, y, var, st =>
    if x.p = Ptr.null then some ((⟨Ptr.null, CW.czero⟩ : VEdge), st)
    else if y.p = Ptr.null then some (y, st)
    else if x.w = CW.czero ∨ y.w = CW.czero then some (vZero, st)
    else if var = -1 then
      let (c, st) := mulCachedW x.w y.w st
      some (makeVectorTerminal c, st)
    else
      let xCopy : MEdge := ⟨x.p, CW.cone⟩
      let yCopy : VEdge := ⟨y.p, CW.cone⟩
      match ctFind st.ctMV (edgeKeyMV xCopy yCopy) with
      | some (rp, rw) =>
        if cvEqZero rw then some (vZero, st)
        else
          let (c, st) := getCachedCW rw st
          let cv := cvMul (cvMul c.val x.w.val) y.w.val
          let c := CW.cachedW cv.r cv.i
          if eqZero c then some (vZero, releaseCachedSt st)
          else some ((⟨rp, c⟩ : VEdge), st)
      | none =>
        if st.mLevel x.p = var ∧ st.vLevel y.p = var ∧ st.mIdent x.p = true then
          let st := { st with ctMV := (edgeKeyMV xCopy yCopy, (yCopy.p, yCopy.w.val)) :: st.ctMV }
          let (c, st) := mulCachedW x.w y.w st
          if eqZero c then some (vZero, releaseCachedSt st)
          else some ((⟨y.p, c⟩ : VEdge), st)
        else do
          let xAt : Bool := decide (¬x.isTerm ∧ st.mLevel x.p = var)
          let yAt : Bool := decide (¬y.isTerm ∧ st.vLevel y.p = var)
          let e1 := if xAt then st.mChild x.p 0 else xCopy
          let e2 := if yAt then st.vChild y.p 0 else yCopy
          let (edge0, st) ← multiply2MV sq fuel e1 e2 (var - 1) st
          let e1 := if xAt then st.mChild x.p 1 else xCopy
          let e2 := if yAt then st.vChild y.p 1 else yCopy
          let (m, st) ← multiply2MV sq fuel e1 e2 (var - 1) st
          let (edge0, st) ← combineV sq fuel edge0 m st
          let e1 := if xAt then st.mChild x.p 2 else xCopy
          let e2 := if yAt then st.vChild y.p 0 else yCopy
          let (edge1, st) ← multiply2MV sq fuel e1 e2 (var - 1) st
          let e1 := if xAt then st.mChild x.p 3 else xCopy
          let e2 := if yAt then st.vChild y.p 1 else yCopy
          let (m, st) ← multiply2MV sq fuel e1 e2 (var - 1) st
          let (edge1, st) ← combineV sq fuel edge1 m st
          let (e, st) := makeVectorNode sq true var edge0 edge1 st
          let st := { st with ctMV := (edgeKeyMV xCopy yCopy, (e.p, e.w.val)) :: st.ctMV }
          if e.w ≠ CW.czero ∧ (x.w ≠ CW.cone ∨ y.w ≠ CW.cone) then
            if e.w = CW.cone then
              let (c, st) := mulCachedW x.w y.w st
              if eqZero c then some (vZero, releaseCachedSt st)
              else some ((⟨e.p, c⟩ : VEdge), st)
            else
              let cv := cvMul (cvMul e.w.val x.w.val) y.w.val
              let c := CW.cachedW cv.r cv.i
              if eqZero c then some (vZero, releaseCachedSt st)
              else some ((⟨e.p, c⟩ : VEdge), st)
          else some (e, st)

/-- Operand pick in the multiply recursions: the operand's child when the
operand's top node sits at the recursion variable, the weight-stripped
operand otherwise. -/
def mulPickM (st : St) (opnd copy : MEdge) (opndAt : Bool) (i : Fin 4) : MEdge :=
  if opndAt then st.mChild opnd.p i else copy

/-- One result entry of the matrix multiply recursion (part_002 lines
887-914): the two products over the inner index k, accumulated by
combineM. -/
def mmQuad (sq : ℚ → ℚ) (fuel : ℕ)
    (recMul : MEdge → MEdge → ℤ → St → Option (MEdge × St))
    (x y xCopy yCopy : MEdge) (xAt yAt : Bool) (i1 i2 j1 j2 : Fin 4) (var : ℤ)
    (st : St) : Option (MEdge × St) := do
  let (c0, st) ← recMul (mulPickM st x xCopy xAt i1) (mulPickM st y yCopy yAt j1) (var - 1) st
  let (m, st) ← recMul (mulPickM st x xCopy xAt i2) (mulPickM st y yCopy yAt j2) (var - 1) st
  combineM sq fuel c0 m st

/-- Final rescale of the matrix multiply result by the operand weights
(part_002 lines 919-930). -/
def mulRescaleM (x y e : MEdge) (st : St) : MEdge × St :=
  if e.w ≠ CW.czero ∧ (x.w ≠ CW.cone ∨ y.w ≠ CW.cone) then
    if e.w = CW.cone then
      let (c, st) := mulCachedW x.w y.w st
      if eqZero c then (mZero, releaseCachedSt st)
      else ((⟨e.p, c⟩ : MEdge), st)
    else
      let cv := cvMul (cvMul e.w.val x.w.val) y.w.val
      let c := CW.cachedW cv.r cv.i
      if eqZero c then (mZero, releaseCachedSt st)
      else ((⟨e.p, c⟩ : MEdge), st)
  else (e, st)

/-- Body of Package::multiply2(mEdge, mEdge) (part_002 lines 823-932) below
the fuel check; recMul is the recursive call at the next lower variable. -/
def mmBody (sq : ℚ → ℚ) (fuel : ℕ)
    (recMul : MEdge → MEdge → ℤ → St → Option (MEdge × St))
    (x y : MEdge) (var : ℤ) (st : St) : Option (MEdge × St) :=
  if x.p = Ptr.null then some (x, st)
  else if y.p = Ptr.null then some (y, st)
  else if x.w = CW.czero ∨ y.w = CW.czero then some (mZero, st)
  else if var = -1 then
    let (c, st) := mulCachedW x.w y.w st
    some (makeMatrixTerminal c, st)
  else
    let xCopy : MEdge := ⟨x.p, CW.cone⟩
    let yCopy : MEdge := ⟨y.p, CW.cone⟩
    match ctFind st.ctMM (edgeKeyMM xCopy yCopy) with
    | some (rp, rw) =>
      if cvEqZero rw then some (mZero, st)
      else
        let (c, st) := getCachedCW rw st
        let cv := cvMul (cvMul c.val x.w.val) y.w.val
        let c := CW.cachedW cv.r cv.i
        if eqZero c then some (mZero, releaseCachedSt st)
        else some ((⟨rp, c⟩ : MEdge), st)
    | none =>
      if st.mLevel x.p = var ∧ st.mLevel y.p = var ∧ st.mIdent x.p = true then do
        let (e, st) ←
          if st.mIdent y.p = true then makeIdentRange fuel 0 var st
          else some (yCopy, st)
        let st := { st with ctMM := (edgeKeyMM xCopy yCopy, (e.p, e.w.val)) :: st.ctMM }
        let (c, st) := mulCachedW x.w y.w st
        if eqZero c then some (mZero, releaseCachedSt st)
        else some ((⟨e.p, c⟩ : MEdge), st)
      else if st.mLevel x.p = var ∧ st.mLevel y.p = var ∧ st.mIdent y.p = true then
        let e := xCopy
        let st := { st with ctMM := (edgeKeyMM xCopy yCopy, (e.p, e.w.val)) :: st.ctMM }
        let (c, st) := mulCachedW x.w y.w st
        if eqZero c then some (mZero, releaseCachedSt st)
        else some ((⟨e.p, c⟩ : MEdge), st)
      else do
        let xAt : Bool := decide (¬x.isTerm ∧ st.mLevel x.p = var)
        let yAt : Bool := decide (¬y.isTerm ∧ st.mLevel y.p = var)
        let (edge0, st) ← mmQuad sq fuel recMul x y xCopy yCopy xAt yAt 0 1 0 2 var st
        let (edge1, st) ← mmQuad sq fuel recMul x y xCopy yCopy xAt yAt 0 1 1 3 var st
        let (edge2, st) ← mmQuad sq fuel recMul x y xCopy yCopy xAt yAt 2 3 0 2 var st
        let (edge3, st) ← mmQuad sq fuel recMul x y xCopy yCopy xAt yAt 2 3 1 3 var st
        let (e, st) ← makeMatrixNode fuel true var edge0 edge1 edge2 edge3 st
        let st := { st with ctMM := (edgeKeyMM xCopy yCopy, (e.p, e.w.val)) :: st.ctMM }
        some (mulRescaleM x y e st)

/-- Package::multiply2(mEdge, mEdge), fuel-indexed. -/
def multiply2MM (sq : ℚ → ℚ) : ℕ → MEdge → MEdge → ℤ → St → Option (MEdge × St)
  | 0, _, _, _, _ => none
  | fuel + 1, x, y, var, st =>
    mmBody sq fuel (fun a b v s => multiply2MM sq fuel a b v s) x y var st

/-- Package::multiply wrapper (part_003 lines 353-376), matrix times
vector: pick the top recursion variable, run multiply2, then intern the
cached result weight.  Asserts cacheCount is unchanged. -/
def multiplyMV (sq : ℚ → ℚ) (fuel : ℕ) (x : MEdge) (y : VEdge) (st : St) :
    Option (VEdge × St) := do
  let var : ℤ := if ¬x.isTerm then st.mLevel x.p else -1
  let var : ℤ := if ¬y.isTerm ∧ st.vLevel y.p > var then st.vLevel y.p else var
  let (e, st) ← multiply2MV sq fuel x y var st
  if e.w ≠ CW.czero ∧ e.w ≠ CW.cone then
    let st := releaseCachedSt st
    some ((⟨e.p, cnLookupC e.w.val⟩ : VEdge), st)
  else some (e, st)

/-- Package::multiply wrapper, matrix times matrix. -/
def multiplyMM (sq : ℚ → ℚ) (fuel : ℕ) (x y : MEdge) (st : St) :
    Option (MEdge × St) := do
  let var : ℤ := if ¬x.isTerm then st.mLevel x.p else -1
  let var : ℤ := if ¬y.isTerm ∧ st.mLevel y.p > var then st.mLevel y.p else var
  let (e, st) ← multiply2MM sq fuel x y var st
  if e.w ≠ CW.czero ∧ e.w ≠ CW.cone then
    let st := releaseCachedSt st
    some ((⟨e.p, cnLookupC e.w.val⟩ : MEdge), st)
  else some (e, st)

/-- Package::innerProduct(x, y, var) (part_002 lines 958-1012): zero
short-circuits, top-weight product at var = 0, compute-table lookup on the
weight-stripped copies, and the conjugating radix-2 recursion.  Only
temporary cache entries are used, so cacheCount never moves. -/
def ipRec : ℕ → VEdge → VEdge → ℤ → St → Option (CV × St)
  | 0, _, _, _, _ => none
  | fuel + 1, x, y, var, st =>
    if x.p = Ptr.null ∨ y.p = Ptr.null ∨ eqZero x.w ∨ eqZero y.w then some (⟨0, 0⟩, st)
    else if var = 0 then some (cvMul x.w.val y.w.val, st)
    else
      let xCopy : VEdge := ⟨x.p, CW.cone⟩
      let yCopy : VEdge := ⟨y.p, CW.cone⟩
      match ctFind st.ctIP (edgeKeyVV xCopy yCopy) with
      | some (_, rw) => some (cvMul (cvMul rw x.w.val) y.w.val, st)
      | none => do
        let w := var - 1
        let e1 := if ¬x.isTerm ∧ st.vLevel x.p = w then st.vChild x.p 0 else xCopy
        let e2 :=
          if ¬y.isTerm ∧ st.vLevel y.p = w then
            (let c := st.vChild y.p 0; (⟨c.p, c.w.conj⟩ : VEdge))
          else yCopy
        let (cv0, st) ← ipRec fuel e1 e2 w st
        let e1 := if ¬x.isTerm ∧ st.vLevel x.p = w then st.vChild x.p 1 else xCopy
        let e2 :=
          if ¬y.isTerm ∧ st.vLevel y.p = w then
            (let c := st.vChild y.p 1; (⟨c.p, c.w.conj⟩ : VEdge))
          else yCopy
        let (cv1, st) ← ipRec fuel e1 e2 w st
        let sum := cvAdd cv0 cv1
        let st := { st with ctIP := (edgeKeyVV xCopy yCopy, (Ptr.term, sum)) :: st.ctIP }
        some (cvMul (cvMul sum x.w.val) y.w.val, st)

/-- Package::innerProduct public entry (part_002 lines 934-951).  Asserts
cacheCount is unchanged. -/
def innerProductP (fuel : ℕ) (x y : VEdge) (st : St) : Option (CV × St) :=
  if x.p = Ptr.null ∨ y.p = Ptr.null ∨ eqZero x.w ∨ eqZero y.w then some (⟨0, 0⟩, st)
  else
    let w := st.vLevel x.p
    let w := if st.vLevel y.p > w then st.vLevel y.p else w
    ipRec fuel x y (w + 1) st

/-- Package::fidelity (part_002 lines 953-956): squared magnitude of the
inner product. -/
def fidelityP (fuel : ℕ) (x y : VEdge) (st : St) : Option (ℚ × St) := do
  let (c, st) ← innerProductP fuel x y st
  some (c.r * c.r + c.i * c.i, st)

/-- Package::trace(mEdge, eliminate, alreadyEliminated) (part_002 lines
1106-1166).  A non-terminal edge at level -1 raises a runtime error,
modelled as failure. -/
def traceRec (sq : ℚ → ℚ) : ℕ → MEdge → List Bool → ℕ → St → Option (MEdge × St)
  | 0, _, _, _, _ => none
  | fuel + 1, a, elim, already, st =>
    let v := st.mLevel a.p
    if eqZero a.w then some (mZero, st)
    else if ¬(elim.any id = true) then some (a, st)
    else if v = -1 then
      (if a.p = Ptr.term then some (a, st) else none)
    else if elim.getD v.toNat false = true then do
      let elims := already + 1
      let (t0, st) ← traceRec sq fuel (st.mChild a.p 0) elim elims st
      let (r1, st) ← add2M sq fuel mZero t0 st
      let (t1, st) ← traceRec sq fuel (st.mChild a.p 3) elim elims st
      let (r2, st) ← add2M sq fuel r1 t1 st
      let rw := if r2.w = CW.cone then a.w else cnLookupC (cvMul r2.w.val a.w.val)
      let st := if r1.w ≠ CW.czero then releaseCachedSt st else st
      let st := if r2.w ≠ CW.czero then releaseCachedSt st else st
      some ((⟨r2.p, rw⟩ : MEdge), st)
    else do
      let adjustedV := v - ((elim.countP id : ℤ) - already)
      let (t0, st) ← traceRec sq fuel (st.mChild a.p 0) elim already st
      let (t1, st) ← traceRec sq fuel (st.mChild a.p 1) elim already st
      let (t2, st) ← traceRec sq fuel (st.mChild a.p 2) elim already st
      let (t3, st) ← traceRec sq fuel (st.mChild a.p 3) elim already st
      let (r, st) ← makeMatrixNode fuel false adjustedV t0 t1 t2 t3 st
      let rw := if r.w = CW.cone then a.w else cnLookupC (cvMul r.w.val a.w.val)
      some ((⟨r.p, rw⟩ : MEdge), st)

/-- Package::partialTrace (part_002 lines 1089-1095): runs trace with
alreadyEliminated = 0 and asserts cacheCount is unchanged. -/
def partTraceP (sq : ℚ → ℚ) (fuel : ℕ) (a : MEdge) (elim : List Bool) (st : St) :
    Option (MEdge × St) :=
  traceRec sq fuel a elim 0 st

/-- Package::kronecker2 for vectors (part_002 lines 1020-1046): compute
table keyed by the unstripped operand edges. -/
def kron2V (sq : ℚ → ℚ) : ℕ → VEdge → VEdge → St → Option (VEdge × St)
  | 0, _, _, _ => none
  | fuel + 1, x, y, st =>
    if eqZero x.w then some (vZero, st)
    else if x.isTerm then
      let (c, st) := mulCachedW x.w y.w st
      some ((⟨y.p, c⟩ : VEdge), st)
    else
      match ctFind st.ctVK (edgeKeyVV x y) with
      | some (rp, rw) =>
        if cvEqZero rw then some (vZero, st)
        else
          let (c, st) := getCachedCW rw st
          some ((⟨rp, c⟩ : VEdge), st)
      | none => do
        let (e0, st) ← kron2V sq fuel (st.vChild x.p 0) y st
        let (e1, st) ← kron2V sq fuel (st.vChild x.p 1) y st
        let (e, st) := makeVectorNode sq true (st.vLevel y.p + st.vLevel x.p + 1) e0 e1 st
        let ew := if e.w = CW.czero then CW.czero
                  else CW.cachedW (cvMul e.w.val x.w.val).r (cvMul e.w.val x.w.val).i
        let st := { st with ctVK := (edgeKeyVV x y, (e.p, ew.val)) :: st.ctVK }
        some ((⟨e.p, ew⟩ : VEdge), st)

/-- Package::kronecker2 for matrices (part_002 lines 1048-1087), with the
identity fast path building a diagonal chain over the inner operand. -/
def kron2M (sq : ℚ → ℚ) : ℕ → MEdge → MEdge → St → Option (MEdge × St)
  | 0, _, _, _ => none
  | fuel + 1, x, y, st =>
    if eqZero x.w then some (mZero, st)
    else if x.isTerm then
      let (c, st) := mulCachedW x.w y.w st
      some ((⟨y.p, c⟩ : MEdge), st)
    else
      match ctFind st.ctMK (edgeKeyMM x y) with
      | some (rp, rw) =>
        if cvEqZero rw then some (mZero, st)
        else
          let (c, st) := getCachedCW rw st
          some ((⟨rp, c⟩ : MEdge), st)
      | none =>
        if st.mIdent x.p = true then do
          let (e, st) ← makeMatrixNode fuel false (st.mLevel y.p + 1) y mZero mZero y st
          let (e, st) ← idChain fuel (st.mLevel x.p).toNat (st.mLevel y.p + 2) e st
          let (c, st) := getCachedCW y.w.val st
          let st := { st with ctMK := (edgeKeyMM x y, (e.p, c.val)) :: st.ctMK }
          some ((⟨e.p, c⟩ : MEdge), st)
        else do
          let (e0, st) ← kron2M sq fuel (st.mChild x.p 0) y st
          let (e1, st) ← kron2M sq fuel (st.mChild x.p 1) y st
          let (e2, st) ← kron2M sq fuel (st.mChild x.p 2) y st
          let (e3, st) ← kron2M sq fuel (st.mChild x.p 3) y st
          let (e, st) ← makeMatrixNode fuel true (st.mLevel y.p + st.mLevel x.p + 1) e0 e1 e2 e3 st
          let ew := if e.w = CW.czero then CW.czero
                    else CW.cachedW (cvMul e.w.val x.w.val).r (cvMul e.w.val x.w.val).i
          let st := { st with ctMK := (edgeKeyMM x y, (e.p, ew.val)) :: st.ctMK }
          some ((⟨e.p, ew⟩ : MEdge), st)

/-- UniqueTable::garbageCollect for the vector table (part_004 lines
185-221): a no-op below the collection limit unless forced; otherwise nodes
with reference count zero are freed, the node count is recomputed and the
limit grows by the increment (0 for the unique tables). -/
def utVGarbageCollect (force : Bool) (st : St) : St :=
  if ¬force ∧ st.vNodeCount < st.vGcLimit then st
  else
    let keep := st.vnodes.map fun nd? =>
      match nd? with
      | some nd => if nd.ref = 0 then none else some nd
      | none => none
    { st with vnodes := keep,
              vNodeCount := keep.countP (·.isSome),
              vGcLimit := st.vGcLimit + 0 }

/-- UniqueTable::garbageCollect for the matrix table. -/
def utMGarbageCollect (force : Bool) (st : St) : St :=
  if ¬force ∧ st.mNodeCount < st.mGcLimit then st
  else
    let keep := st.mnodes.map fun nd? =>
      match nd? with
      | some nd => if nd.ref = 0 then none else some nd
      | none => none
    { st with mnodes := keep,
              mNodeCount := keep.countP (·.isSome),
              mGcLimit := st.mGcLimit + 0 }

/-- Package::clearIdentityTable (part_003 lines 495-497): null the target
of every IdTable entry. -/
def clearIdentityTable (st : St) : St :=
  { st with idTable := st.idTable.map fun _ => none }

/-- Package::clearComputeTables (part_002 lines 467-483): clear the nine
operator compute tables, the Toffoli table, the identity table and the
noise-operation table. -/
def clearComputeTables (st : St) : St :=
  let st := { st with ctVAdd := [], ctMAdd := [], ctMT := [], ctCMT := [],
                      ctMM := [], ctMV := [], ctIP := [], ctVK := [], ctMK := [],
                      toffoli := [] }
  let st := clearIdentityTable st
  { st with operations := [] }

/-- Package::garbageCollect (part_002 lines 458-465): run the unique-table
collectors and the float-pool collector (the pool is abstracted to values
here and carries no collectable state of its own), then clear every compute
table. -/
def garbageCollect (force : Bool) (st : St) : St :=
  clearComputeTables (utMGarbageCollect force (utVGarbageCollect force st))

end DD

namespace DD

/-- Helper: a list mapped to the constant none has none at every position. -/
theorem getD_map_none {α β : Type} (l : List α) (n : ℕ) :
    (l.map fun _ => (none : Option β)).getD n none = none := by
  induction l generalizing n with
  | nil => rfl
  | cons a t ih =>
    cases n with
    | zero => rfl
    | succ m => exact ih m

/-- Helper: the unique-table collectors do not touch the identity table. -/
theorem utGC_idTable (force : Bool) (st : St) :
    (utMGarbageCollect force (utVGarbageCollect force st)).idTable = st.idTable := by
  unfold utMGarbageCollect utVGarbageCollect
  split <;> split <;> rfl

/-- Claim C6: a compute-table entry never survives a garbage-collection
run.  Every call to Package::garbageCollect, whether forced or not and
whether or not any node was collected, leaves all eleven compute tables
(vector add, matrix add, transpose, conjugate transpose, matrix multiply,
matrix-vector multiply, inner product, vector Kronecker, matrix Kronecker,
Toffoli, noise operations) empty in the same call. -/
theorem garbageCollect_clears_compute_tables (force : Bool) (st : St) :
    (garbageCollect force st).ctVAdd = [] ∧ (garbageCollect force st).ctMAdd = [] ∧
    (garbageCollect force st).ctMT = [] ∧ (garbageCollect force st).ctCMT = [] ∧
    (garbageCollect force st).ctMM = [] ∧ (garbageCollect force st).ctMV = [] ∧
    (garbageCollect force st).ctIP = [] ∧ (garbageCollect force st).ctVK = [] ∧
    (garbageCollect force st).ctMK = [] ∧ (garbageCollect force st).toffoli = [] ∧
    (garbageCollect force st).operations = [] :=
  ⟨rfl, rfl, rfl, rfl, rfl, rfl, rfl, rfl, rfl, rfl, rfl⟩

/-- Claim C10: garbageCollect (through clearComputeTables, which calls
clearIdentityTable) also empties the memoized identity table: after any
garbage-collection call, and after any clearComputeTables call, every
IdTable entry is null, so the next makeIdent finds no cached entry (idGet
is none at every level) and rebuilds the identity from scratch. -/
theorem garbageCollect_clears_identity_table (force : Bool) (st : St) (q : ℤ) :
    (∀ e ∈ (garbageCollect force st).idTable, e = none) ∧
    (∀ e ∈ (clearComputeTables st).idTable, e = none) ∧
    (garbageCollect force st).idGet q = none ∧
    (clearComputeTables st).idGet q = none := by
  have h1 : (garbageCollect force st).idTable = st.idTable.map fun _ => none := by
    show (clearComputeTables _).idTable = _
    rw [show ∀ s : St, (clearComputeTables s).idTable = s.idTable.map fun _ => none
        from fun s => rfl]
    rw [utGC_idTable]
  have h2 : (clearComputeTables st).idTable = st.idTable.map fun _ => none := rfl
  refine ⟨?_, ?_, ?_, ?_⟩
  · intro e he
    rw [h1] at he
    obtain ⟨a, _, ha⟩ := List.mem_map.mp he
    exact ha.symm
  · intro e he
    rw [h2] at he
    obtain ⟨a, _, ha⟩ := List.mem_map.mp he
    exact ha.symm
  · unfold St.idGet
    rw [h1]
    split
    · rfl
    · exact getD_map_none _ _
  · unfold St.idGet
    rw [h2]
    split
    · rfl
    · exact getD_map_none _ _

/-- Claim C9: makeBasisState with a basis-state vector of fewer than n+1
entries raises std::invalid_argument immediately: the call returns the
error and the package state is exactly the input state, so no node has been
constructed. -/
theorem makeBasisState_short_vector_throws (sq : ℚ → ℚ) (sqrt2 : ℚ) (msq : ℤ)
    (state : List BasisStates) (st : St) (h : (state.length : ℤ) < msq + 1) :
    makeBasisStateB sq sqrt2 msq state st =
      (.error "Insufficient qubit states provided", st) := by
  unfold makeBasisStateB
  rw [if_pos h]

/-- Witness for claim C9 at a concrete input: one basis designator for a
two-qubit request. -/
theorem makeBasisState_short_vector_throws_witness :
    makeBasisStateB (fun q => q) 1 1 [BasisStates.zero] freshSt =
      (.error "Insufficient qubit states provided", freshSt) :=
  makeBasisState_short_vector_throws (fun q => q) 1 1 [BasisStates.zero] freshSt (by decide)

end DD

namespace DD

/-- First operand of the C5 counterexample: node 0 scaled by 2. -/
def xC5 : VEdge := ⟨.node 0, .interned 2 0⟩

/-- Second operand of the C5 counterexample. -/
def yC5 : VEdge := ⟨.node 1, .cone⟩

/-- State for the C5 counterexample: two level-0 vector nodes and a vector
add compute-table entry stored under the weight-stripped operand pair,
pointing at sentinel node 7. -/
def stC5 : St := { freshSt with
  vnodes := [some ⟨0, ⟨.term, .cone⟩, ⟨.term, .czero⟩, 0⟩,
             some ⟨0, ⟨.term, .czero⟩, ⟨.term, .cone⟩, 0⟩],
  ctVAdd := [(addKeyV (stripV xC5) (stripV yC5), (Ptr.node 7, (⟨1, 0⟩ : CV)))] }

/-- Counterexample to claim C5 as stated: the vector add compute table is
keyed on the operands' own weights (CachedEdge carries the weight value),
not on weight-stripped copies.  An entry for the stripped operand pair
(result target node 7) sits in the table, yet add2 on the rescaled operand
x (weight 2) builds its key from the actual weights, misses, and computes a
fresh node (node 2) instead of reusing the entry, so the cache is not
reusable across scalar re-scaling for the add tables. -/
theorem add_ct_key_carries_operand_weights :
    ctFind stC5.ctVAdd (addKeyV (stripV xC5) (stripV yC5)) =
      some (Ptr.node 7, (⟨1, 0⟩ : CV)) ∧
    addKeyV xC5 yC5 ≠ addKeyV (stripV xC5) (stripV yC5) ∧
    ctFind stC5.ctVAdd (addKeyV xC5 yC5) = none ∧
    (add2V (fun q => q) 2 xC5 yC5 stC5).map (fun r => r.1) =
      some ⟨Ptr.node 2, CW.cachedW (5 / 2) 0⟩ := by
  refine ⟨by with_unfolding_all decide, by with_unfolding_all decide,
    by with_unfolding_all decide, by with_unfolding_all decide⟩

/-- Claim C5 amended: the matrix-vector multiply, matrix-matrix multiply
and inner-product compute tables are consulted with both operand edges
stripped to weight ONE, so a hit there is reused across any scalar
re-scaling of the operands, the result being rescaled by the actual operand
weights; the add and Kronecker tables instead carry the operands' own
weights in their keys (see the counterexample). -/
theorem multiply_innerProduct_ct_keys_stripped :
    (∀ (sq : ℚ → ℚ) (fuel : ℕ) (x : MEdge) (y : VEdge) (var : ℤ) (st : St)
       (rp : Ptr) (rw : CV),
       x.p ≠ Ptr.null → y.p ≠ Ptr.null → ¬(x.w = CW.czero ∨ y.w = CW.czero) →
       var ≠ -1 →
       ctFind st.ctMV (edgeKeyMV (stripM x) (stripV y)) = some (rp, rw) →
       ¬cvEqZero rw →
       ¬eqZero (CW.cachedW (cvMul (cvMul rw x.w.val) y.w.val).r
                           (cvMul (cvMul rw x.w.val) y.w.val).i) →
       multiply2MV sq (fuel + 1) x y var st =
         some (⟨rp, CW.cachedW (cvMul (cvMul rw x.w.val) y.w.val).r
                               (cvMul (cvMul rw x.w.val) y.w.val).i⟩,
               { st with cacheCount := st.cacheCount - 2 })) ∧
    (∀ (sq : ℚ → ℚ) (fuel : ℕ) (x y : MEdge) (var : ℤ) (st : St)
       (rp : Ptr) (rw : CV),
       x.p ≠ Ptr.null → y.p ≠ Ptr.null → ¬(x.w = CW.czero ∨ y.w = CW.czero) →
       var ≠ -1 →
       ctFind st.ctMM (edgeKeyMM (stripM x) (stripM y)) = some (rp, rw) →
       ¬cvEqZero rw →
       ¬eqZero (CW.cachedW (cvMul (cvMul rw x.w.val) y.w.val).r
                           (cvMul (cvMul rw x.w.val) y.w.val).i) →
       multiply2MM sq (fuel + 1) x y var st =
         some (⟨rp, CW.cachedW (cvMul (cvMul rw x.w.val) y.w.val).r
                               (cvMul (cvMul rw x.w.val) y.w.val).i⟩,
               { st with cacheCount := st.cacheCount - 2 })) ∧
    (∀ (fuel : ℕ) (x y : VEdge) (var : ℤ) (st : St) (rp : Ptr) (rw : CV),
       ¬(x.p = Ptr.null ∨ y.p = Ptr.null ∨ eqZero x.w ∨ eqZero y.w) →
       var ≠ 0 →
       ctFind st.ctIP (edgeKeyVV (stripV x) (stripV y)) = some (rp, rw) →
       ipRec (fuel + 1) x y var st = some (cvMul (cvMul rw x.w.val) y.w.val, st)) := by
  refine ⟨?_, ?_, ?_⟩
  · intro sq fuel x y var st rp rw hx hy hw hvar hct hnz hnz2
    unfold multiply2MV
    rw [if_neg hx, if_neg hy, if_neg hw, if_neg hvar]
    have hct2 : ctFind st.ctMV (edgeKeyMV ⟨x.p, CW.cone⟩ ⟨y.p, CW.cone⟩) = some (rp, rw) := hct
    dsimp only []
    rw [hct2]
    dsimp only []
    rw [if_neg hnz]
    simp only [getCachedCW]
    have he : (CW.cachedW rw.r rw.i).val = rw := rfl
    rw [he]
    rw [if_neg hnz2]
  · intro sq fuel x y var st rp rw hx hy hw hvar hct hnz hnz2
    show mmBody sq fuel _ x y var st = _
    unfold mmBody
    rw [if_neg hx, if_neg hy, if_neg hw, if_neg hvar]
    have hct2 : ctFind st.ctMM (edgeKeyMM ⟨x.p, CW.cone⟩ ⟨y.p, CW.cone⟩) = some (rp, rw) := hct
    dsimp only []
    rw [hct2]
    dsimp only []
    rw [if_neg hnz]
    simp only [getCachedCW]
    have he : (CW.cachedW rw.r rw.i).val = rw := rfl
    rw [he]
    rw [if_neg hnz2]
  · intro fuel x y var st rp rw hg hvar hct
    unfold ipRec
    rw [if_neg hg, if_neg hvar]
    have hct2 : ctFind st.ctIP (edgeKeyVV ⟨x.p, CW.cone⟩ ⟨y.p, CW.cone⟩) = some (rp, rw) := hct
    dsimp only []
    rw [hct2]



/-- Matrix operand for the C5 witness: node 0 scaled by 2. -/
def xW5 : MEdge := ⟨Ptr.node 0, CW.interned 2 0⟩

/-- Vector operand for the C5 witness. -/
def yW5 : VEdge := ⟨Ptr.node 1, CW.cone⟩

/-- State for the C5 witness: a matrix-vector multiply compute-table entry
stored under the stripped operand pair. -/
def stW5 : St :=
  { freshSt with ctMV := [(edgeKeyMV (stripM xW5) (stripV yW5), (Ptr.node 3, (⟨2, 0⟩ : CV)))] }

/-- Helper: the stripped-key entry of stW5 is found by the table search. -/
theorem c5wit_h1 : ctFind stW5.ctMV (edgeKeyMV (stripM xW5) (stripV yW5)) = some (Ptr.node 3, (⟨2, 0⟩ : CV)) := by
  with_unfolding_all decide



/-- Witness for the amended claim C5 at a concrete input: the entry stored
under the stripped key is found although the operand weight is 2, and the
result is the entry rescaled to weight 4. -/
theorem multiply_innerProduct_ct_keys_stripped_witness :
    multiply2MV (fun q => q) 1 xW5 yW5 0 stW5 =
      some (⟨Ptr.node 3, CW.cachedW 4 0⟩, { stW5 with cacheCount := 1798 }) := by
  refine Eq.trans (multiply_innerProduct_ct_keys_stripped.1 (fun q => q) 0 xW5 yW5 0 stW5
    (Ptr.node 3) ⟨2, 0⟩ (by decide) (by decide) (by decide) (by decide)
    c5wit_h1 (by with_unfolding_all decide)
    (by with_unfolding_all decide)) ?_
  have hc : stW5.cacheCount - 2 = (1798 : ℤ) := by with_unfolding_all decide
  have hw : CW.cachedW (cvMul (cvMul ⟨2, 0⟩ xW5.w.val) yW5.w.val).r
      (cvMul (cvMul ⟨2, 0⟩ xW5.w.val) yW5.w.val).i = CW.cachedW 4 0 := by
    with_unfolding_all decide
  rw [hc, hw]

end DD

namespace DD

/-- One step of the argmax selection rule as claim C2 words it, over
(zero-flag, squared-magnitude) pairs: zero edges are skipped; the first
non-zero index starts the maximum; a later index replaces the current one
only if its squared magnitude exceeds the current maximum by more than the
tolerance, so ties go to the lowest index. -/
def specStepC2 (acc : Option (ℕ × ℚ)) (i : ℕ) (e : Bool × ℚ) : Option (ℕ × ℚ) :=
  if e.1 then acc
  else
    match acc with
    | none => some (i, e.2)
    | some (a, mx) => if e.2 - mx > TOL then some (i, e.2) else some (a, mx)

/-- Fold of the claim C2 argmax rule over an indexed list. -/
def specArgmaxC2Aux : ℕ → Option (ℕ × ℚ) → List (Bool × ℚ) → Option (ℕ × ℚ)
  | _, acc, [] => acc
  | i, acc, e :: rest => specArgmaxC2Aux (i + 1) (specStepC2 acc i e) rest

/-- Index of the maximum squared magnitude under the claim C2 rule. -/
def specArgmaxC2 (l : List (Bool × ℚ)) : Option ℕ :=
  (specArgmaxC2Aux 0 none l).map (fun t => t.1)

/-- Helper: one code argmax step projects onto one claim C2 argmax step. -/
theorem mArgStep_spec (acc : Option (ℕ × ℚ × CW)) (i : ℕ) (z : Bool) (k : MEdge) :
    specStepC2 (acc.map fun t => (t.1, t.2.1)) i (z, cvMag2 k.w.val) =
      (mArgStep acc i z k).map fun t => (t.1, t.2.1) := by
  cases z with
  | true => rfl
  | false =>
    rcases acc with _ | ⟨a, mx, mc⟩
    · rfl
    · show (if cvMag2 k.w.val - mx > TOL then (some (i, cvMag2 k.w.val) : Option (ℕ × ℚ))
            else some (a, mx)) =
        Option.map (fun t => (t.1, t.2.1))
          (if cvMag2 k.w.val - mx > TOL then some (i, cvMag2 k.w.val, k.w)
           else some (a, mx, mc))
      by_cases hc : cvMag2 k.w.val - mx > TOL
      · rw [if_pos hc, if_pos hc]
        rfl
      · rw [if_neg hc, if_neg hc]
        rfl

/-- Helper: the argmax fold ignores the zero-snap rewriting of a child. -/
theorem mArgStep_snap (acc : Option (ℕ × ℚ × CW)) (i : ℕ) (z : Bool) (P : Prop)
    [Decidable P] (k : MEdge) :
    mArgStep acc i z (if z ∧ P then mZero else k) = mArgStep acc i z k := by
  cases z with
  | true => simp [mArgStep]
  | false => simp [mArgStep]

/-- Claim C2: on a freshly built matrix node (parent weight ONE) with at
least one non-zero child, normalize picks the argmax exactly as the claim
states it (strictly maximal squared magnitude, a later index winning only
beyond the tolerance, ties to the lowest index), multiplies the parent
edge weight by the argmax weight, rewrites the argmax edge weight to ONE,
replaces within-tolerance-of-zero edges by the structural zero edge, and
divides every other non-zero edge weight (here stated for weights not
themselves within tolerance of one, which the pool first snaps to ONE) by
the argmax weight. -/
theorem mNormalize_matches_claim_argmax (cached : Bool) (k0 k1 k2 k3 : MEdge) (st : St)
    (a : ℕ) (mx : ℚ) (maxc : CW)
    (h : mArgStep (mArgStep (mArgStep (mArgStep none 0 (decide (eqZero k0.w)) k0)
           1 (decide (eqZero k1.w)) k1) 2 (decide (eqZero k2.w)) k2)
           3 (decide (eqZero k3.w)) k3 = some (a, mx, maxc)) :
    specArgmaxC2 [(decide (eqZero k0.w), cvMag2 k0.w.val),
                  (decide (eqZero k1.w), cvMag2 k1.w.val),
                  (decide (eqZero k2.w), cvMag2 k2.w.val),
                  (decide (eqZero k3.w), cvMag2 k3.w.val)] = some a ∧
    ∃ K0 K1 K2 K3 st2,
      mNormalize cached CW.cone k0 k1 k2 k3 st = (.norm maxc K0 K1 K2 K3, st2) ∧
      ((a = 0 ∧ ¬eqZero k0.w → K0 = ⟨k0.p, CW.cone⟩) ∧
       (a ≠ 0 ∧ eqZero k0.w → K0 = mZero) ∧
       (a ≠ 0 ∧ ¬eqZero k0.w ∧ ¬eqOne k0.w →
         K0 = ⟨k0.p, cnLookupC (cvDiv k0.w.val maxc.val)⟩)) ∧
      ((a = 1 ∧ ¬eqZero k1.w → K1 = ⟨k1.p, CW.cone⟩) ∧
       (a ≠ 1 ∧ eqZero k1.w → K1 = mZero) ∧
       (a ≠ 1 ∧ ¬eqZero k1.w ∧ ¬eqOne k1.w →
         K1 = ⟨k1.p, cnLookupC (cvDiv k1.w.val maxc.val)⟩)) ∧
      ((a = 2 ∧ ¬eqZero k2.w → K2 = ⟨k2.p, CW.cone⟩) ∧
       (a ≠ 2 ∧ eqZero k2.w → K2 = mZero) ∧
       (a ≠ 2 ∧ ¬eqZero k2.w ∧ ¬eqOne k2.w →
         K2 = ⟨k2.p, cnLookupC (cvDiv k2.w.val maxc.val)⟩)) ∧
      ((a = 3 ∧ ¬eqZero k3.w → K3 = ⟨k3.p, CW.cone⟩) ∧
       (a ≠ 3 ∧ eqZero k3.w → K3 = mZero) ∧
       (a ≠ 3 ∧ ¬eqZero k3.w ∧ ¬eqOne k3.w →
         K3 = ⟨k3.p, cnLookupC (cvDiv k3.w.val maxc.val)⟩)) := by
  constructor
  · have e0 : specArgmaxC2
        [(decide (eqZero k0.w), cvMag2 k0.w.val),
         (decide (eqZero k1.w), cvMag2 k1.w.val),
         (decide (eqZero k2.w), cvMag2 k2.w.val),
         (decide (eqZero k3.w), cvMag2 k3.w.val)] =
        (specStepC2 (specStepC2 (specStepC2 (specStepC2 ((none : Option (ℕ × ℚ × CW)).map
          fun t => (t.1, t.2.1)) 0 (decide (eqZero k0.w), cvMag2 k0.w.val))
          1 (decide (eqZero k1.w), cvMag2 k1.w.val))
          2 (decide (eqZero k2.w), cvMag2 k2.w.val))
          3 (decide (eqZero k3.w), cvMag2 k3.w.val)).map (fun t => t.1) := rfl
    rw [e0, mArgStep_spec, mArgStep_spec, mArgStep_spec, mArgStep_spec, h]
    rfl
  · unfold mNormalize
    dsimp only []
    rw [mArgStep_snap, mArgStep_snap, mArgStep_snap, mArgStep_snap, h]
    dsimp only []
    simp only [reduceIte, ite_self]
    refine ⟨_, _, _, _, _, rfl, ?_, ?_, ?_, ?_⟩
    · refine ⟨?_, ?_, ?_⟩
      · rintro ⟨ha, hz⟩
        rw [if_pos ha]
        simp [hz]
      · rintro ⟨ha, hz⟩
        rw [if_neg ha]
        simp [mDivChild, hz]
      · rintro ⟨ha, hz, hone⟩
        rw [if_neg ha]
        simp [mDivChild, hz, hone]
    · refine ⟨?_, ?_, ?_⟩
      · rintro ⟨ha, hz⟩
        rw [if_pos ha]
        simp [hz]
      · rintro ⟨ha, hz⟩
        rw [if_neg ha]
        simp [mDivChild, hz]
      · rintro ⟨ha, hz, hone⟩
        rw [if_neg ha]
        simp [mDivChild, hz, hone]
    · refine ⟨?_, ?_, ?_⟩
      · rintro ⟨ha, hz⟩
        rw [if_pos ha]
        simp [hz]
      · rintro ⟨ha, hz⟩
        rw [if_neg ha]
        simp [mDivChild, hz]
      · rintro ⟨ha, hz, hone⟩
        rw [if_neg ha]
        simp [mDivChild, hz, hone]
    · refine ⟨?_, ?_, ?_⟩
      · rintro ⟨ha, hz⟩
        rw [if_pos ha]
        simp [hz]
      · rintro ⟨ha, hz⟩
        rw [if_neg ha]
        simp [mDivChild, hz]
      · rintro ⟨ha, hz, hone⟩
        rw [if_neg ha]
        simp [mDivChild, hz, hone]


/-- Child edges for the C2 witness: magnitudes 1/4, 1, 0, 1/4, so the
argmax is index 1. -/
def e0C2 : MEdge := ⟨.term, .interned (1/2) 0⟩

/-- Argmax child of the C2 witness. -/
def e1C2 : MEdge := ⟨.term, .cone⟩

/-- Zero child of the C2 witness. -/
def e2C2 : MEdge := ⟨.term, .czero⟩

/-- Fourth child of the C2 witness, tied with the first. -/
def e3C2 : MEdge := ⟨.term, .interned (1/2) 0⟩

/-- Witness for claim C2 at a concrete input: among magnitudes
1/4, 1, 0, 1/4 the argmax is index 1 and its weight CN::ONE becomes the
parent weight. -/
theorem mNormalize_matches_claim_argmax_witness :
    specArgmaxC2 [(decide (eqZero e0C2.w), cvMag2 e0C2.w.val),
                  (decide (eqZero e1C2.w), cvMag2 e1C2.w.val),
                  (decide (eqZero e2C2.w), cvMag2 e2C2.w.val),
                  (decide (eqZero e3C2.w), cvMag2 e3C2.w.val)] = some 1 ∧
    ∃ K0 K1 K2 K3 st2,
      mNormalize false CW.cone e0C2 e1C2 e2C2 e3C2 freshSt =
        (.norm CW.cone K0 K1 K2 K3, st2) ∧
      ((1 = 0 ∧ ¬eqZero e0C2.w → K0 = ⟨e0C2.p, CW.cone⟩) ∧
       ((1 : ℕ) ≠ 0 ∧ eqZero e0C2.w → K0 = mZero) ∧
       ((1 : ℕ) ≠ 0 ∧ ¬eqZero e0C2.w ∧ ¬eqOne e0C2.w →
         K0 = ⟨e0C2.p, cnLookupC (cvDiv e0C2.w.val CW.cone.val)⟩)) ∧
      ((1 = 1 ∧ ¬eqZero e1C2.w → K1 = ⟨e1C2.p, CW.cone⟩) ∧
       ((1 : ℕ) ≠ 1 ∧ eqZero e1C2.w → K1 = mZero) ∧
       ((1 : ℕ) ≠ 1 ∧ ¬eqZero e1C2.w ∧ ¬eqOne e1C2.w →
         K1 = ⟨e1C2.p, cnLookupC (cvDiv e1C2.w.val CW.cone.val)⟩)) ∧
      ((1 = 2 ∧ ¬eqZero e2C2.w → K2 = ⟨e2C2.p, CW.cone⟩) ∧
       ((1 : ℕ) ≠ 2 ∧ eqZero e2C2.w → K2 = mZero) ∧
       ((1 : ℕ) ≠ 2 ∧ ¬eqZero e2C2.w ∧ ¬eqOne e2C2.w →
         K2 = ⟨e2C2.p, cnLookupC (cvDiv e2C2.w.val CW.cone.val)⟩)) ∧
      ((1 = 3 ∧ ¬eqZero e3C2.w → K3 = ⟨e3C2.p, CW.cone⟩) ∧
       ((1 : ℕ) ≠ 3 ∧ eqZero e3C2.w → K3 = mZero) ∧
       ((1 : ℕ) ≠ 3 ∧ ¬eqZero e3C2.w ∧ ¬eqOne e3C2.w →
         K3 = ⟨e3C2.p, cnLookupC (cvDiv e3C2.w.val CW.cone.val)⟩)) :=
  mNormalize_matches_claim_argmax false e0C2 e1C2 e2C2 e3C2 freshSt 1 1 CW.cone
    (by with_unfolding_all decide)

end DD

namespace DD

/-- Square-root callback for the C3 counterexample: exact value 5/3 at the
argument 25/9 that normalization passes to it. -/
def sqC3 : ℚ → ℚ := fun q => if q = 25/9 then 5/3 else q

/-- First child of the C3 counterexample node, weight 3. -/
def k0C3 : VEdge := ⟨.term, .interned 3 0⟩

/-- Second child of the C3 counterexample node, weight 4. -/
def k1C3 : VEdge := ⟨.term, .interned 4 0⟩

/-- Counterexample to claim C3 as stated: building a vector node with
child weights 3 and 4 stores edge weights 3/5 and 4/5 (the pivot, the
first non-zero edge, gets lookup(1/s) = 3/5, s = sqrt(25/9)), so no edge
weight of the stored node equals ONE, let alone the pivot's; the claim
that the pivot weight is ONE fails.  (The magnitudes 9/25 and 16/25 do
sum to 1, which is the part of the invariant the code provides.) -/
theorem vector_pivot_weight_not_one :
    (makeVectorNode sqC3 false 0 k0C3 k1C3 freshSt).1 =
      ⟨Ptr.node 0, CW.interned 5 0⟩ ∧
    (makeVectorNode sqC3 false 0 k0C3 k1C3 freshSt).2.vAt 0 =
      some ⟨0, ⟨Ptr.term, CW.interned (3/5) 0⟩, ⟨Ptr.term, CW.interned (4/5) 0⟩, 0⟩ ∧
    CW.interned (3/5) 0 ≠ CW.cone ∧ ¬eqOne (CW.interned (3/5) 0) ∧
    CW.interned (4/5) 0 ≠ CW.cone ∧ ¬eqOne (CW.interned (4/5) 0) := by
  refine ⟨by with_unfolding_all decide, by with_unfolding_all decide,
    by with_unfolding_all decide, by with_unfolding_all decide,
    by with_unfolding_all decide, by with_unfolding_all decide⟩


/-- Helper: shape of the uncached vector normalization on two non-null,
non-zero children: the parent weight is lookup of the first weight scaled
by s, the pivot child gets lookup(1/s), the other child the interned
quotient, and the state is untouched. -/
theorem c3shape (sq : ℚ → ℚ) (k0 k1 : VEdge) (st : St) (s : ℚ)
    (h0 : k0.p ≠ Ptr.null) (h1 : k1.p ≠ Ptr.null)
    (hz0 : ¬eqZero k0.w) (hz1 : ¬eqZero k1.w)
    (hs : sq ((cvMag2 k0.w.val + cvMag2 k1.w.val) / cvMag2 k0.w.val) = s)
    (hnz : ¬eqZero (cnLookup (k0.w.val.r * s) (k0.w.val.i * s))) :
    vNormalize sq false k0 k1 st =
      (.norm (cnLookup (k0.w.val.r * s) (k0.w.val.i * s))
        (if cnLookup (1/s) 0 = CW.czero then vZero else ⟨k0.p, cnLookup (1/s) 0⟩)
        (if cnLookupC (cvDiv k1.w.val (cnLookup (k0.w.val.r * s) (k0.w.val.i * s)).val) = CW.czero
         then vZero
         else ⟨k1.p, cnLookupC (cvDiv k1.w.val (cnLookup (k0.w.val.r * s) (k0.w.val.i * s)).val)⟩),
       st) := by
  have hs0 : (eqZero k0.w ∧ k0.w ≠ CW.czero) = False := eq_false (fun h => hz0 h.1)
  have hs1 : (eqZero k1.w ∧ k1.w ≠ CW.czero) = False := eq_false (fun h => hz1 h.1)
  have hc0 : (¬(k0.p = Ptr.null ∨ eqZero k0.w)) = True :=
    eq_true (fun h => h.elim h0 hz0)
  have hc1 : (¬(k1.p = Ptr.null ∨ eqZero k1.w)) = True :=
    eq_true (fun h => h.elim h1 hz1)
  unfold vNormalize
  dsimp only []
  simp only [hs0, hs1, if_false, hc0, hc1, decide_True, reduceIte, true_or, or_true, or_self,
    Bool.false_eq_true, false_and, if_true]
  rw [hs]
  simp only [eq_false hnz, if_false, eq_false hz1]


/-- Helper: squared magnitudes are nonnegative. -/
theorem cvMag2_nonneg (c : CV) : 0 ≤ cvMag2 c := by
  unfold cvMag2
  nlinarith [mul_self_nonneg c.r, mul_self_nonneg c.i]

/-- Helper: the tolerance is positive and small. -/
theorem TOL_facts : (0 : ℚ) < TOL ∧ (TOL : ℚ) < 1 / 100 := by
  norm_num [TOL]

/-- Helper: a weight that is not within tolerance of zero has squared
magnitude above the squared tolerance. -/
theorem cvMag2_pos_of_not_eqZero (c : CV) (h : ¬cvEqZero c) : 0 < cvMag2 c := by
  unfold cvEqZero at h
  push_neg at h
  unfold cvMag2
  rcases le_or_lt TOL |c.r| with hr | hr
  · have h2 : TOL * TOL ≤ |c.r| * |c.r| :=
      mul_le_mul hr hr (le_of_lt TOL_facts.1) (abs_nonneg _)
    have h3 : |c.r| * |c.r| = c.r * c.r := abs_mul_abs_self c.r
    nlinarith [TOL_facts.1, mul_self_nonneg c.i]
  · have hi := h hr
    have h2 : TOL * TOL ≤ |c.i| * |c.i| :=
      mul_le_mul hi hi (le_of_lt TOL_facts.1) (abs_nonneg _)
    have h3 : |c.i| * |c.i| = c.i * c.i := abs_mul_abs_self c.i
    nlinarith [TOL_facts.1, mul_self_nonneg c.r]

/-- Helper: what the pool snap does to one component: keeps it, clamps a
within-tolerance-of-zero value to 0, or clamps a within-tolerance-of-one
magnitude to a unit value. -/
theorem snapQ_spec (v : ℚ) :
    snapQ v = v ∨
    (snapQ v = 0 ∧ v * v < TOL * TOL) ∨
    (snapQ v * snapQ v = 1 ∧ (1 - TOL) * (1 - TOL) < v * v ∧
      v * v < (1 + TOL) * (1 + TOL)) := by
  unfold snapQ
  split_ifs with h1 h2 h3
  · right
    left
    have := abs_lt.mp h1
    exact ⟨rfl, by nlinarith [this.1, this.2]⟩
  · right
    right
    have hb := abs_lt.mp h2
    have ha : |v| * |v| = v * v := abs_mul_abs_self v
    have hnn : (0 : ℚ) ≤ |v| := abs_nonneg v
    refine ⟨by norm_num, by nlinarith [TOL_facts.1, TOL_facts.2], by nlinarith [TOL_facts.1]⟩
  · right
    right
    have hb := abs_lt.mp h2
    have ha : |v| * |v| = v * v := abs_mul_abs_self v
    have hnn : (0 : ℚ) ≤ |v| := abs_nonneg v
    refine ⟨by norm_num, by nlinarith [TOL_facts.1, TOL_facts.2], by nlinarith [TOL_facts.1]⟩
  · left
    rfl

/-- Helper: the pool snap of a pair inside the closed unit disc stays
within 2 tol of the disc. -/
theorem snap_pair_mag_le (x y : ℚ) (h : x * x + y * y ≤ 1) :
    snapQ x * snapQ x + snapQ y * snapQ y ≤ 1 + 2 * TOL := by
  have ht0 := TOL_facts.1
  have ht1 := TOL_facts.2
  rcases snapQ_spec x with hx | ⟨hx, hx2⟩ | ⟨hx, hx2, hx3⟩ <;>
    rcases snapQ_spec y with hy | ⟨hy, hy2⟩ | ⟨hy, hy2, hy3⟩ <;>
    rw [hx] <;> try rw [hy]
  · nlinarith
  · nlinarith [sq_nonneg y]
  · nlinarith [sq_nonneg x, sq_nonneg y]
  · nlinarith [sq_nonneg x, sq_nonneg y]
  · nlinarith [sq_nonneg x, sq_nonneg y]
  · nlinarith [sq_nonneg x, sq_nonneg y]
  · nlinarith [sq_nonneg x, sq_nonneg y]
  · nlinarith [sq_nonneg x, sq_nonneg y]
  · nlinarith [sq_nonneg x, sq_nonneg y]


/-- Helper: magnitude bound for the value produced by interning: a value
pair inside the closed unit disc is interned with squared magnitude at
most 1 + 2 tol. -/
theorem cnLookupC_mag_le (c : CV) (h : cvMag2 c ≤ 1) :
    cvMag2 (cnLookupC c).val ≤ 1 + 2 * TOL := by
  have hp : snapQ c.r * snapQ c.r + snapQ c.i * snapQ c.i ≤ 1 + 2 * TOL :=
    snap_pair_mag_le c.r c.i h
  unfold cnLookupC cnLookup
  dsimp only []
  split_ifs with h1 h2
  · show (0 : ℚ) * 0 + 0 * 0 ≤ _
    nlinarith [TOL_facts.1]
  · show (1 : ℚ) * 1 + 0 * 0 ≤ _
    nlinarith [TOL_facts.1]
  · exact hp

/-- Helper: squared magnitude of a complex quotient. -/
theorem cvMag2_cvDiv (a b : CV) (hb : cvMag2 b ≠ 0) :
    cvMag2 (cvDiv a b) = cvMag2 a / cvMag2 b := by
  unfold cvMag2 at hb
  unfold cvDiv cvMag2
  dsimp only []
  field_simp
  ring

/-- Helper: the pivot weight lookup(1/s) has squared magnitude at most one
when s is at least one in square. -/
theorem pivot_mag_le_one (s : ℚ) (hpos : 0 < s) (hs1 : 1 ≤ s * s) :
    cvMag2 (cnLookup (1/s) 0).val ≤ 1 := by
  have hss : (0 : ℚ) < s * s := by nlinarith
  have hinv : (1/s) * (1/s) ≤ 1 := by
    rw [div_mul_div_comm, one_mul, div_le_one hss]
    exact hs1
  have hz : snapQ 0 = 0 := by
    unfold snapQ
    rw [if_pos (by simpa using TOL_facts.1)]
  unfold cnLookup
  dsimp only []
  rw [hz]
  rcases snapQ_spec (1/s) with hx | ⟨hx, hx2⟩ | ⟨hx, hx2, hx3⟩
  · rw [hx]
    split_ifs
    · show (0 : ℚ) * 0 + 0 * 0 ≤ _
      norm_num
    · show (1 : ℚ) * 1 + 0 * 0 ≤ _
      norm_num
    · show 1/s * (1/s) + 0 * 0 ≤ _
      nlinarith
  · rw [hx]
    split_ifs
    · show (0 : ℚ) * 0 + 0 * 0 ≤ _
      norm_num
    · show (1 : ℚ) * 1 + 0 * 0 ≤ _
      norm_num
    · show (0 : ℚ) * 0 + 0 * 0 ≤ _
      norm_num
  · split_ifs
    · show (0 : ℚ) * 0 + 0 * 0 ≤ _
      norm_num
    · show (1 : ℚ) * 1 + 0 * 0 ≤ _
      norm_num
    · show snapQ (1/s) * snapQ (1/s) + 0 * 0 ≤ _
      nlinarith [hx]


/-- Claim C3 amended: for a fresh uncached vector node with two non-zero
children, normalize stores the pivot (the first non-zero edge, which the
code calls argmax) with weight lookup(1/s) rather than ONE, where s is the
square root of sum/div; that pivot weight has squared magnitude at most 1,
and the other stored weight (the quotient by the parent weight, when the
parent weight interns exactly) has squared magnitude at most 1 + 2 tol. -/
theorem vector_normalize_pivot_and_magnitude_bounds
    (sq : ℚ → ℚ) (k0 k1 : VEdge) (st : St) (s : ℚ)
    (h0 : k0.p ≠ Ptr.null) (h1 : k1.p ≠ Ptr.null)
    (hz0 : ¬eqZero k0.w) (hz1 : ¬eqZero k1.w)
    (hs : sq ((cvMag2 k0.w.val + cvMag2 k1.w.val) / cvMag2 k0.w.val) = s)
    (hpos : 0 < s)
    (hsq : s * s = (cvMag2 k0.w.val + cvMag2 k1.w.val) / cvMag2 k0.w.val)
    (hnz : ¬eqZero (cnLookup (k0.w.val.r * s) (k0.w.val.i * s)))
    (hsnap : (cnLookup (k0.w.val.r * s) (k0.w.val.i * s)).val =
      ⟨k0.w.val.r * s, k0.w.val.i * s⟩) :
    vNormalize sq false k0 k1 st =
      (.norm (cnLookup (k0.w.val.r * s) (k0.w.val.i * s))
        (if cnLookup (1/s) 0 = CW.czero then vZero else ⟨k0.p, cnLookup (1/s) 0⟩)
        (if cnLookupC (cvDiv k1.w.val (cnLookup (k0.w.val.r * s) (k0.w.val.i * s)).val) = CW.czero
         then vZero
         else ⟨k1.p, cnLookupC (cvDiv k1.w.val (cnLookup (k0.w.val.r * s) (k0.w.val.i * s)).val)⟩),
       st) ∧
    cvMag2 (cnLookup (1/s) 0).val ≤ 1 ∧
    cvMag2 (cnLookupC (cvDiv k1.w.val
      (cnLookup (k0.w.val.r * s) (k0.w.val.i * s)).val)).val ≤ 1 + 2 * TOL := by
  have hm0 : 0 < cvMag2 k0.w.val := cvMag2_pos_of_not_eqZero k0.w.val hz0
  have hm1 : 0 ≤ cvMag2 k1.w.val := cvMag2_nonneg k1.w.val
  have hs1 : 1 ≤ s * s := by
    rw [hsq, le_div_iff hm0]
    nlinarith
  refine ⟨c3shape sq k0 k1 st s h0 h1 hz0 hz1 hs hnz, pivot_mag_le_one s hpos hs1, ?_⟩
  have hbmag : cvMag2 ((cnLookup (k0.w.val.r * s) (k0.w.val.i * s)).val) =
      cvMag2 k0.w.val + cvMag2 k1.w.val := by
    rw [hsnap]
    show k0.w.val.r * s * (k0.w.val.r * s) + k0.w.val.i * s * (k0.w.val.i * s) = _
    have hx : k0.w.val.r * s * (k0.w.val.r * s) + k0.w.val.i * s * (k0.w.val.i * s) =
        cvMag2 k0.w.val * (s * s) := by
      unfold cvMag2
      ring
    rw [hx, hsq]
    field_simp
  have hbpos : 0 < cvMag2 ((cnLookup (k0.w.val.r * s) (k0.w.val.i * s)).val) := by
    rw [hbmag]
    nlinarith
  have hquot : cvMag2 (cvDiv k1.w.val (cnLookup (k0.w.val.r * s) (k0.w.val.i * s)).val) ≤ 1 := by
    rw [cvMag2_cvDiv _ _ (ne_of_gt hbpos), div_le_one hbpos, hbmag]
    nlinarith
  exact cnLookupC_mag_le _ hquot

/-- Witness for the amended claim C3 at the counterexample input itself:
children weighted 3 and 4 give s = 5/3, pivot weight 3/5 (squared
magnitude 9/25 at most 1) and second weight 4/5 (squared magnitude 16/25
at most 1 + 2 tol). -/
theorem vector_normalize_pivot_and_magnitude_bounds_witness :
    vNormalize sqC3 false k0C3 k1C3 freshSt =
      (.norm (cnLookup (k0C3.w.val.r * (5/3)) (k0C3.w.val.i * (5/3)))
        (if cnLookup (1/(5/3)) 0 = CW.czero then vZero
         else ⟨k0C3.p, cnLookup (1/(5/3)) 0⟩)
        (if cnLookupC (cvDiv k1C3.w.val
             (cnLookup (k0C3.w.val.r * (5/3)) (k0C3.w.val.i * (5/3))).val) = CW.czero
         then vZero
         else ⟨k1C3.p, cnLookupC (cvDiv k1C3.w.val
             (cnLookup (k0C3.w.val.r * (5/3)) (k0C3.w.val.i * (5/3))).val)⟩),
       freshSt) ∧
    cvMag2 (cnLookup (1/(5/3)) 0).val ≤ 1 ∧
    cvMag2 (cnLookupC (cvDiv k1C3.w.val
      (cnLookup (k0C3.w.val.r * (5/3)) (k0C3.w.val.i * (5/3))).val)).val ≤ 1 + 2 * TOL :=
  vector_normalize_pivot_and_magnitude_bounds sqC3 k0C3 k1C3 freshSt (5/3)
    (by decide) (by decide) (by with_unfolding_all decide) (by with_unfolding_all decide)
    (by with_unfolding_all decide) (by norm_num)
    (by with_unfolding_all decide) (by with_unfolding_all decide)
    (by with_unfolding_all decide)

end DD
